import Mathlib

/-!
# Fae template engine: a shallow embedding of the compiler and VM

This file embeds the fae text-templating engine (`fae.hpp` / `fae.cpp`) in
Lean 4 and settles a list of claims about it.

Modelling conventions:

* `std::string` buffers are `List Char`; `size_t` arithmetic is `Nat` with an
  explicit wraparound modulus `usizeSize = 2 ^ 64` wherever the source can
  underflow an unsigned index (the `expStart - 1` / `expStart - 2` escape
  probes).
* `std::string::operator[]` / `std::vector::operator[]` at an out-of-range
  position is undefined behaviour in C++. Character probes are modelled
  totally by `getC`, which returns `none` out of range; vector accesses that
  the source performs blindly surface as explicit error values (`CErr.stackEmptyUB`
  for `std::stack::top()` on an empty stack, `CErr.indexUB` / `RErr.oobUB`
  for out-of-range vector indexing), never as a normal result.
* The 16-bit instructions are `Nat` values; every point where the source
  stores into a `std::uint16_t` takes `% 65536`.
* Fallible code returns `Except`; recursion that the C++ performs with an
  unbounded loop (the compile scan, the VM dispatch loop, include recursion)
  is given explicit fuel, with `.fuel` as the (unreachable in the claims)
  exhaustion marker.
-/

set_option maxRecDepth 10000

deriving instance DecidableEq for Except

namespace Fae

/-- Modulus of `size_t` arithmetic (LP64: 2 ^ 64). -/
def usizeSize : Nat := 18446744073709551616

/-- Wrapping `size_t` subtraction `a - b`, as the C++ source computes
`expStart - 1` and `expStart - 2` on unsigned indices. -/
def wrapSub (a b : Nat) : Nat := (a + (usizeSize - b)) % usizeSize

/-- Total character access: `buf[i]` as an `Option`, `none` when `i` is out
of range (the source's unguarded `std::string::operator[]`). -/
def getC (buf : List Char) (i : Nat) : Option Char := buf.get? i

/-- The slice `[a, b)` of a buffer, as built by the source's
`std::string(begin + a, begin + b)` iterator-pair constructors. -/
def slice (buf : List Char) (a b : Nat) : List Char := (buf.take b).drop a

/-- Scan a character list for the first occurrence of the two-character
needle `$(`, returning its offset. Implements `std::string::find("$(", pos)`
relative to position `pos`. -/
def scanDP : List Char → Option Nat
  | [] => none
  | c :: rest =>
    if c = '$' then
      match rest with
      | '(' :: _ => some 0
      | _ => (scanDP rest).map (· + 1)
    else (scanDP rest).map (· + 1)

/-- `buf.find("$(", processed)` of the source: first index `≥ processed`
where `$(` starts, or `none` for `npos`. -/
def findDP (buf : List Char) (processed : Nat) : Option Nat :=
  (scanDP (buf.drop processed)).map (processed + ·)

/-- Character class `[a-zA-Z_]` of the source's regexes. -/
def isIdentStart (c : Char) : Bool :=
  (('a' ≤ c && c ≤ 'z') || ('A' ≤ c && c ≤ 'Z')) || c = '_'

/-- Character class `[a-zA-Z0-9_]` of the source's regexes. -/
def isIdentChar (c : Char) : Bool :=
  isIdentStart c || ('0' ≤ c && c ≤ '9')

/-- The `\s` class of `std::regex` (ECMAScript): space, `\t`, `\n`, `\v`,
`\f`, `\r`. -/
def isWs (c : Char) : Bool :=
  ((c = ' ' || c = '\t') || (c = '\n' || c = '\x0b')) || (c = '\x0c' || c = '\r')

/-- Anchored match for the regex `^end\)`. Returns the length of the whole
match (always 4). -/
def matchEnd : List Char → Option Nat
  | 'e' :: 'n' :: 'd' :: ')' :: _ => some 4
  | _ => none

/-- Anchored match for `^([a-zA-Z_][a-zA-Z0-9_]*)\)`: an identifier directly
followed by `)`. Returns the captured identifier and the length of the whole
match. -/
def matchVar (l : List Char) : Option (List Char × Nat) :=
  match l with
  | [] => none
  | c :: rest =>
    if isIdentStart c then
      let tl := rest.takeWhile isIdentChar
      match rest.dropWhile isIdentChar with
      | ')' :: _ => some (c :: tl, tl.length + 2)
      | _ => none
    else none

/-- Parse a maximal nonempty whitespace run followed by an identifier, the
shared `\s+([a-zA-Z_][a-zA-Z0-9_]*)` tail of the `if` and `for` regexes.
Returns `(identifier, chars consumed)` with the rest of the input. -/
def matchWsIdent (l : List Char) : Option (List Char × Nat × List Char) :=
  let ws := l.takeWhile isWs
  if ws.isEmpty then none
  else
    match l.dropWhile isWs with
    | [] => none
    | c :: rest =>
      if isIdentStart c then
        let tl := rest.takeWhile isIdentChar
        some (c :: tl, ws.length + tl.length + 1, rest.dropWhile isIdentChar)
      else none

/-- Anchored match for `^if\s+([a-zA-Z_][a-zA-Z0-9_]*)\)`. Returns the
captured identifier and the length of the whole match. -/
def matchIf (l : List Char) : Option (List Char × Nat) :=
  match l with
  | 'i' :: 'f' :: rest =>
    match matchWsIdent rest with
    | some (name, used, ')' :: _) => some (name, used + 3)
    | _ => none
  | _ => none

/-- Anchored match for
`^for\s++([a-zA-Z_][a-zA-Z0-9_]*)\s++in\s++([a-zA-Z_][a-zA-Z0-9_]*)\)`.
Returns both captured identifiers and the length of the whole match. -/
def matchFor (l : List Char) : Option (List Char × List Char × Nat) :=
  match l with
  | 'f' :: 'o' :: 'r' :: rest =>
    match matchWsIdent rest with
    | some (single, used1, afterSingle) =>
      let ws2 := afterSingle.takeWhile isWs
      if ws2.isEmpty then none
      else
        match afterSingle.dropWhile isWs with
        | 'i' :: 'n' :: afterIn =>
          match matchWsIdent afterIn with
          | some (listName, used2, ')' :: _) =>
            some (single, listName, used1 + ws2.length + used2 + 6)
          | _ => none
        | _ => none
    | none => none
  | _ => none

/-- Anchored match for `^include ([^)]+)\)`: the literal `include`, one
space, a nonempty run of non-`)` characters, then `)`. Returns the captured
target and the length of the whole match. -/
def matchInclude (l : List Char) : Option (List Char × Nat) :=
  match l with
  | 'i' :: 'n' :: 'c' :: 'l' :: 'u' :: 'd' :: 'e' :: ' ' :: rest =>
    let tgt := rest.takeWhile (fun c => !(c = ')'))
    if tgt.isEmpty then none
    else
      match rest.dropWhile (fun c => !(c = ')')) with
      | ')' :: _ => some (tgt, tgt.length + 9)
      | _ => none
  | _ => none

/-- Compile-time failures. `invalidTemplate` is the thrown
`FaeException("Invalid template")`; `stackEmptyUB` marks the undefined
`offsetStack.top()` on an empty `std::stack`; `indexUB` marks an
out-of-range `m_bytecode[...]` read; `fuel` is the modelling artefact for
the bounded scan and never occurs at the fuel `compile` supplies. -/
inductive CErr where
  | invalidTemplate
  | stackEmptyUB
  | indexUB
  | fuel
deriving DecidableEq, Repr

/-- Compiler state: the fragment, variable-name and include-name tables,
the bytecode under construction, and the fixup stack of placeholder PCs
(`offsetStack`, top first). -/
structure CState where
  fragments : List (List Char)
  varNames : List (List Char)
  includeNames : List (List Char)
  bytecode : List Nat
  offsetStack : List Nat
deriving DecidableEq, Repr

/-- The empty compiler state of a fresh `Template`. -/
def initCState : CState := ⟨[], [], [], [], []⟩

/-- `Template::addFragment`: append the fragment and a `Copy` instruction
referencing it. The 16-bit store truncates with `% 65536`. -/
def addFragment (st : CState) (frag : List Char) : CState :=
  let fragments := st.fragments ++ [frag]
  { st with
    fragments := fragments
    bytecode := st.bytecode ++ [(0x2000 ||| (fragments.length - 1)) % 65536] }

/-- `m_fragments.back() += '$'` of the escape branch. -/
def appendDollar (st : CState) : CState :=
  { st with
    fragments := st.fragments.dropLast ++ [(st.fragments.getLast?.getD []) ++ ['$']] }

/-- `Template::addVariable`: return the index of `name` in the name table,
appending it if absent. The C++ returns a `std::uint16_t`, hence `% 65536`.
Returns the (possibly extended) table alongside the index. -/
def addVariable (varNames : List (List Char)) (name : List Char) :
    Nat × List (List Char) :=
  match varNames.indexOf? name with
  | some i => (i % 65536, varNames)
  | none => ((varNames.length + 1 - 1) % 65536, varNames ++ [name])

/-- One compile step either finishes (the `npos` branch's `break`) or
continues at a new `processed` index. -/
inductive Step (σ : Type) where
  | done (s : σ)
  | next (processed : Nat) (s : σ)
deriving Repr

/-- The literal flush and command dispatch of `Template::compile`, entered
once escapes are resolved: flush the literal run `[processed, expStart)`
when it is longer than one character, then try the five command patterns on
the text after `$(`. -/
def dispatchCore (buf : List Char) (expStart : Nat) (st : CState) :
    Except CErr (Step CState) :=
  let rem := buf.drop (expStart + 2)
  match matchEnd rem with
  | some mlen =>
    match st.offsetStack with
    | [] => .error .stackEmptyUB
    | p0 :: stackRest =>
      match st.bytecode.get? p0 with
      | none => .error .indexUB
      | some placed =>
        let bc1 :=
          if placed &&& 0xE000 = 0xA000 then st.bytecode ++ [(0xC000 ||| p0) % 65536]
          else st.bytecode
        let nextIndex := bc1.length
        let bc2 := bc1.set p0 ((placed ||| nextIndex) % 65536)
        .ok (.next (expStart + 2 + mlen)
          { st with bytecode := bc2, offsetStack := stackRest })
  | none =>
  match matchVar rem with
  | some (name, mlen) =>
    let (idx, varNames) := addVariable st.varNames name
    .ok (.next (expStart + 2 + mlen)
      { st with varNames := varNames
                bytecode := st.bytecode ++ [(0x4000 ||| idx) % 65536] })
  | none =>
  match matchIf rem with
  | some (name, mlen) =>
    let (idx, varNames) := addVariable st.varNames name
    let bc := st.bytecode ++ [(0x6000 ||| idx) % 65536] ++ [0x8000]
    .ok (.next (expStart + 2 + mlen)
      { st with varNames := varNames
                bytecode := bc
                offsetStack := ((bc.length - 1) % 65536) :: st.offsetStack })
  | none =>
  match matchFor rem with
  | some (single, listName, mlen) =>
    let (idx1, varNames1) := addVariable st.varNames single
    let (idx2, varNames2) := addVariable varNames1 listName
    let bc := st.bytecode ++ [(0x6000 ||| idx1) % 65536]
      ++ [(0x6000 ||| idx2) % 65536] ++ [0xA000]
    .ok (.next (expStart + 2 + mlen)
      { st with varNames := varNames2
                bytecode := bc
                offsetStack := ((bc.length - 1) % 65536) :: st.offsetStack })
  | none =>
  match matchInclude rem with
  | some (tgt, mlen) =>
    .ok (.next (expStart + 2 + mlen)
      { st with
        bytecode := st.bytecode ++ [(0xE000 ||| st.includeNames.length) % 65536]
        includeNames := st.includeNames ++ [tgt] })
  | none => .error .invalidTemplate

/-- The literal flush (`expStart - processed > 1`) followed by the command
dispatch. -/
def dispatch (buf : List Char) (processed expStart : Nat) (st : CState) :
    Except CErr (Step CState) :=
  dispatchCore buf expStart
    (if expStart - processed > 1 then addFragment st (slice buf processed expStart)
     else st)

/-- One iteration of the `while (processed < buf.size())` loop of
`Template::compile`: find the next `$(`; emit the literal tail and stop if
there is none; otherwise resolve the backslash escapes (the wrapped
`expStart - 1` / `expStart - 2` probes of the source) and dispatch. -/
def compileStep (buf : List Char) (processed : Nat) (st : CState) :
    Except CErr (Step CState) :=
  match findDP buf processed with
  | none =>
    .ok (.done (addFragment st (slice buf processed buf.length)))
  | some expStart =>
    if getC buf (wrapSub expStart 1) = some '\\' then
      if getC buf (wrapSub expStart 2) = some '\\' then
        dispatch buf expStart expStart
          (addFragment st (slice buf processed (wrapSub expStart 1)))
      else
        .ok (.next (expStart + 1)
          (appendDollar (addFragment st (slice buf processed (wrapSub expStart 1)))))
    else
      dispatch buf processed expStart st

/-- The fuelled `while (processed < buf.size())` driver of
`Template::compile`. -/
def compileLoop (buf : List Char) : Nat → Nat → CState → Except CErr CState
  | 0, _, _ => .error .fuel
  | fuel + 1, processed, st =>
    if processed < buf.length then
      match compileStep buf processed st with
      | .error e => .error e
      | .ok (.done s) => .ok s
      | .ok (.next p2 s) => compileLoop buf fuel p2 s
    else .ok st

/-- A compiled program: the tables plus the bytecode (`m_fragments`,
`m_varNames`, `m_includeNames`, `m_bytecode` of `Template`). -/
structure Program where
  fragments : List (List Char)
  varNames : List (List Char)
  includeNames : List (List Char)
  bytecode : List Nat
deriving DecidableEq, Repr

instance : Inhabited Program := ⟨⟨[], [], [], []⟩⟩

/-- `Template::compile`: run the scan loop and append the final `Halt`.
Note that the source never inspects the fixup stack here: a leftover entry
(an unclosed block) is silently discarded. -/
def compile (buf : List Char) : Except CErr Program :=
  match compileLoop buf (buf.length + 1) 0 initCState with
  | .error e => .error e
  | .ok st => .ok ⟨st.fragments, st.varNames, st.includeNames, st.bytecode ++ [0]⟩

/-! ## The wide (unpacked) instruction stream

`compileW` replays `Template::compile` instruction for instruction, but
records each emitted instruction as an unpacked pair `(opcode, operand)` —
the opcode the emitting site intends (`Copy = 1`, `Substitute = 2`,
`Immediate = 3`, `FalseJump = 4`, `ListEndJump = 5`, `Jump = 6`,
`Include = 7`, `Halt = 0`) together with the untruncated operand — instead
of packing them into a 16-bit word with `opcode | operand`. It is the
specification yardstick for the operand-width claim: an instruction of the
real `compile` is faithful exactly when it equals
`opcode * 0x2000 + operand` of the corresponding wide instruction. -/

/-- Wide compiler state: as `CState`, with unpacked instructions and an
untruncated fixup stack. -/
structure WState where
  fragments : List (List Char)
  varNames : List (List Char)
  includeNames : List (List Char)
  bytecodeW : List (Nat × Nat)
  offsetStackW : List Nat
deriving DecidableEq, Repr

/-- The empty wide compiler state. -/
def initWState : WState := ⟨[], [], [], [], []⟩

/-- `addVariable` without the `std::uint16_t` truncation of the returned
index. -/
def addVariableW (varNames : List (List Char)) (name : List Char) :
    Nat × List (List Char) :=
  match varNames.indexOf? name with
  | some i => (i, varNames)
  | none => (varNames.length + 1 - 1, varNames ++ [name])

/-- `addFragment` on the wide state. -/
def addFragmentW (st : WState) (frag : List Char) : WState :=
  let fragments := st.fragments ++ [frag]
  { st with
    fragments := fragments
    bytecodeW := st.bytecodeW ++ [(1, fragments.length - 1)] }

/-- `appendDollar` on the wide state. -/
def appendDollarW (st : WState) : WState :=
  { st with
    fragments := st.fragments.dropLast ++ [(st.fragments.getLast?.getD []) ++ ['$']] }

/-- `dispatch` on the wide state. -/
def dispatchCoreW (buf : List Char) (expStart : Nat) (st : WState) :
    Except CErr (Step WState) :=
  let rem := buf.drop (expStart + 2)
  match matchEnd rem with
  | some mlen =>
    match st.offsetStackW with
    | [] => .error .stackEmptyUB
    | p0 :: stackRest =>
      match st.bytecodeW.get? p0 with
      | none => .error .indexUB
      | some placed =>
        let bc1 :=
          if placed.1 = 5 then st.bytecodeW ++ [(6, p0)]
          else st.bytecodeW
        let nextIndex := bc1.length
        let bc2 := bc1.set p0 (placed.1, placed.2 ||| nextIndex)
        .ok (.next (expStart + 2 + mlen)
          { st with bytecodeW := bc2, offsetStackW := stackRest })
  | none =>
  match matchVar rem with
  | some (name, mlen) =>
    let (idx, varNames) := addVariableW st.varNames name
    .ok (.next (expStart + 2 + mlen)
      { st with varNames := varNames
                bytecodeW := st.bytecodeW ++ [(2, idx)] })
  | none =>
  match matchIf rem with
  | some (name, mlen) =>
    let (idx, varNames) := addVariableW st.varNames name
    let bc := st.bytecodeW ++ [(3, idx)] ++ [(4, 0)]
    .ok (.next (expStart + 2 + mlen)
      { st with varNames := varNames
                bytecodeW := bc
                offsetStackW := (bc.length - 1) :: st.offsetStackW })
  | none =>
  match matchFor rem with
  | some (single, listName, mlen) =>
    let (idx1, varNames1) := addVariableW st.varNames single
    let (idx2, varNames2) := addVariableW varNames1 listName
    let bc := st.bytecodeW ++ [(3, idx1)] ++ [(3, idx2)] ++ [(5, 0)]
    .ok (.next (expStart + 2 + mlen)
      { st with varNames := varNames2
                bytecodeW := bc
                offsetStackW := (bc.length - 1) :: st.offsetStackW })
  | none =>
  match matchInclude rem with
  | some (tgt, mlen) =>
    .ok (.next (expStart + 2 + mlen)
      { st with
        bytecodeW := st.bytecodeW ++ [(7, st.includeNames.length)]
        includeNames := st.includeNames ++ [tgt] })
  | none => .error .invalidTemplate

/-- The literal flush followed by the command dispatch on the wide state. -/
def dispatchW (buf : List Char) (processed expStart : Nat) (st : WState) :
    Except CErr (Step WState) :=
  dispatchCoreW buf expStart
    (if expStart - processed > 1 then addFragmentW st (slice buf processed expStart)
     else st)

/-- `compileStep` on the wide state. -/
def compileStepW (buf : List Char) (processed : Nat) (st : WState) :
    Except CErr (Step WState) :=
  match findDP buf processed with
  | none =>
    .ok (.done (addFragmentW st (slice buf processed buf.length)))
  | some expStart =>
    if getC buf (wrapSub expStart 1) = some '\\' then
      if getC buf (wrapSub expStart 2) = some '\\' then
        dispatchW buf expStart expStart
          (addFragmentW st (slice buf processed (wrapSub expStart 1)))
      else
        .ok (.next (expStart + 1)
          (appendDollarW (addFragmentW st (slice buf processed (wrapSub expStart 1)))))
    else
      dispatchW buf processed expStart st

/-- The scan driver on the wide state. -/
def compileLoopW (buf : List Char) : Nat → Nat → WState → Except CErr WState
  | 0, _, _ => .error .fuel
  | fuel + 1, processed, st =>
    if processed < buf.length then
      match compileStepW buf processed st with
      | .error e => .error e
      | .ok (.done s) => .ok s
      | .ok (.next p2 s) => compileLoopW buf fuel p2 s
    else .ok st

/-- A compiled program with unpacked instructions. -/
structure ProgramW where
  fragments : List (List Char)
  varNames : List (List Char)
  includeNames : List (List Char)
  bytecodeW : List (Nat × Nat)
deriving DecidableEq, Repr

/-- `compile` with unpacked instructions. -/
def compileW (buf : List Char) : Except CErr ProgramW :=
  match compileLoopW buf (buf.length + 1) 0 initWState with
  | .error e => .error e
  | .ok st => .ok ⟨st.fragments, st.varNames, st.includeNames, st.bytecodeW ++ [(0, 0)]⟩

/-- Pack a wide instruction the way the source's `opcode | operand` stores
pack it into a `std::uint16_t`. -/
def packT (x : Nat × Nat) : Nat := ((x.1 * 0x2000) ||| (x.2 % 65536)) % 65536

/-! ## The bytecode VM (`Template::render` and the `libraryRender` callbacks) -/

/-- Host values: the `std::variant` alternatives the tests exercise.
`vList` models the container alternatives (`std::array` / `std::vector` /
`std::deque`), which satisfy `detail::IsContainer` and are not
stream-insertable; the scalar alternatives are stream-insertable. -/
inductive Value where
  | vInt (n : Int)
  | vBool (b : Bool)
  | vStr (s : List Char)
  | vList (elems : List Value)

/-- `detail::IsStreamInsertable` on the variant alternatives: scalars are,
containers are not. -/
def insertable : Value → Bool
  | .vList _ => false
  | _ => true

/-- `stream << value` for a stream-insertable value, with `std::boolalpha`
set as `Template::render` does. -/
def printValue : Value → List Char
  | .vInt n => (toString n).data
  | .vBool b => (if b then "true" else "false").data
  | .vStr s => s
  | .vList _ => []

/-- What a `std::visit` with the insertability guard writes: the printed
value for insertable alternatives, nothing for containers. -/
def emitVal (v : Value) : List Char :=
  if insertable v then printValue v else []

/-- The caller-supplied binding map, `std::map<std::string, std::variant>`.
Keys are unique in a `std::map`; lookups take the first match. -/
def Input : Type := List (List Char × Value)

/-- `input.find(name)` on the binding map. -/
def inputFind (input : Input) (name : List Char) : Option Value :=
  match input with
  | [] => none
  | (k, v) :: rest => if k = name then some v else inputFind rest name

/-- The render-scoped `currentIterators` map of `Template::libraryRender`:
loop-variable index to (the key of the container's map entry captured when
the loop started, the cursor position inside that container). The C++
stores an iterator to the `input` entry plus a `std::any` container
iterator; over an immutable map those are the key and an index. -/
def Iters : Type := List (Nat × (List Char × Nat))

/-- `currentIterators.find(key)`. -/
def itersFind (iters : Iters) (key : Nat) : Option (List Char × Nat) :=
  match iters with
  | [] => none
  | (k, v) :: rest => if k = key then some v else itersFind rest key

/-- `currentIterators[key] = value` (insert or assign). -/
def itersSet (iters : Iters) (key : Nat) (v : List Char × Nat) : Iters :=
  match iters with
  | [] => [(key, v)]
  | (k, w) :: rest => if k = key then (k, v) :: rest else (k, w) :: itersSet rest key v

/-- `currentIterators.erase(it)`. -/
def itersErase (iters : Iters) (key : Nat) : Iters :=
  match iters with
  | [] => []
  | (k, w) :: rest => if k = key then rest else (k, w) :: itersErase rest key

/-- Render-time failures. `notFound` and `unrecognized` are the two
`FaeException` throws (`Library::render` on a missing name, the VM's
default case); `oobUB` marks an out-of-range vector/iterator access that is
undefined behaviour in the source; `fuel` is the bounded-recursion
artefact. -/
inductive RErr where
  | notFound
  | unrecognized
  | oobUB
  | fuel
deriving DecidableEq, Repr

/-- Whether an error is a `FaeException` the source can catch. -/
def isFaeException : RErr → Bool
  | .notFound => true
  | .unrecognized => true
  | _ => false

/-- A template library: `Library::m_templates`, the name-to-program map. -/
def Library : Type := List (List Char × Program)

/-- `m_templates.find(templateName)`. -/
def libFind (lib : Library) (name : List Char) : Option Program :=
  match lib with
  | [] => none
  | (k, p) :: rest => if k = name then some p else libFind rest name

/-- The `printVar` lambda of `Template::libraryRender`: if the variable
index is an active loop item, emit the current element of the container
captured for it (when the element type is stream-insertable); otherwise
emit the bound value (when insertable), or nothing when unbound. -/
def printVar (p : Program) (input : Input) (iters : Iters) (key : Nat) :
    Except RErr (List Char) :=
  match itersFind iters key with
  | some (storedKey, cursor) =>
    match inputFind input storedKey with
    | none => .error .oobUB
    | some v =>
      match v with
      | .vList elems =>
        match elems.get? cursor with
        | none => .error .oobUB
        | some e => .ok (emitVal e)
      | _ => .ok []
  | none =>
    match p.varNames.get? key with
    | none => .error .oobUB
    | some name =>
      match inputFind input name with
      | none => .ok []
      | some v => .ok (emitVal v)

/-- The `varExists` lambda: the name is bound in the input map or the index
is an active loop item. -/
def varExists (p : Program) (input : Input) (iters : Iters) (key : Nat) :
    Except RErr Bool :=
  match p.varNames.get? key with
  | none => .error .oobUB
  | some name => .ok ((inputFind input name).isSome || (itersFind iters key).isSome)

/-- The `advanceContainer` lambda: look up the container bound to the list
variable; fail (skip the loop) when it is unbound, not a container, or
empty; start a cursor on first entry; otherwise advance the stored cursor,
erasing the entry at the container's end. -/
def advanceContainer (p : Program) (input : Input) (iters : Iters)
    (singleIdx listIdx : Nat) : Except RErr (Bool × Iters) :=
  match p.varNames.get? listIdx with
  | none => .error .oobUB
  | some listName =>
    match inputFind input listName with
    | none => .ok (false, iters)
    | some v =>
      match v with
      | .vList elems =>
        if elems.length = 0 then .ok (false, iters)
        else
          match itersFind iters singleIdx with
          | none => .ok (true, itersSet iters singleIdx (listName, 0))
          | some (storedKey, cursor) =>
            if cursor + 1 = elems.length then .ok (false, itersErase iters singleIdx)
            else .ok (true, itersSet iters singleIdx (storedKey, cursor + 1))
      | _ => .ok (false, iters)

/-- The fuelled dispatch loop of `Template::render` together with the
`renderInclude` callback of `Template::libraryRender` / `Library::render`.
`lib = none` is a direct `Template::render(input)` call (the include
callback's `pLibrary` is `nullptr`); `lib = some l` is a render driven by
`Library::render`, which resolves `$(include t)` by a recursive render and
swallows any `FaeException` it raises. The program counter wraps as the
C++ `size_t` does; leaving `[0, size)` ends the `for` loop and returns the
accumulated stream. -/
def faeRun (lib : Option Library) (p : Program) (input : Input) :
    Nat → Nat → Iters → List Char → Except RErr (List Char)
  | 0, _, _, _ => .error .fuel
  | fuel + 1, pc, iters, acc =>
    match p.bytecode.get? pc with
    | none => .ok acc
    | some op =>
      if op = 0 then .ok acc
      else if op &&& 0xE000 = 0x2000 then
        match p.fragments.get? (op &&& 0x1FFF) with
        | none => .error .oobUB
        | some frag => faeRun lib p input fuel ((pc + 1) % usizeSize) iters (acc ++ frag)
      else if op &&& 0xE000 = 0x4000 then
        match printVar p input iters (op &&& 0x1FFF) with
        | .error e => .error e
        | .ok out => faeRun lib p input fuel ((pc + 1) % usizeSize) iters (acc ++ out)
      else if op &&& 0xE000 = 0x6000 then
        faeRun lib p input fuel ((pc + 1) % usizeSize) iters acc
      else if op &&& 0xE000 = 0x8000 then
        match p.bytecode.get? (wrapSub pc 1) with
        | none => .error .oobUB
        | some prev =>
          match varExists p input iters (prev &&& 0x1FFF) with
          | .error e => .error e
          | .ok true => faeRun lib p input fuel ((pc + 1) % usizeSize) iters acc
          | .ok false =>
            faeRun lib p input fuel ((wrapSub (op &&& 0x1FFF) 1 + 1) % usizeSize) iters acc
      else if op &&& 0xE000 = 0xA000 then
        match p.bytecode.get? (wrapSub pc 2), p.bytecode.get? (wrapSub pc 1) with
        | some prev2, some prev1 =>
          match advanceContainer p input iters (prev2 &&& 0x1FFF) (prev1 &&& 0x1FFF) with
          | .error e => .error e
          | .ok (true, iters2) => faeRun lib p input fuel ((pc + 1) % usizeSize) iters2 acc
          | .ok (false, iters2) =>
            faeRun lib p input fuel ((wrapSub (op &&& 0x1FFF) 1 + 1) % usizeSize) iters2 acc
        | _, _ => .error .oobUB
      else if op &&& 0xE000 = 0xC000 then
        faeRun lib p input fuel ((wrapSub (op &&& 0x1FFF) 1 + 1) % usizeSize) iters acc
      else if op &&& 0xE000 = 0xE000 then
        match lib with
        | none => faeRun lib p input fuel ((pc + 1) % usizeSize) iters acc
        | some l =>
          match p.includeNames.get? (op &&& 0x1FFF) with
          | none => .error .oobUB
          | some tgt =>
            match libFind l tgt with
            | none => faeRun lib p input fuel ((pc + 1) % usizeSize) iters acc
            | some sub =>
              match faeRun (some l) sub input fuel 0 [] [] with
              | .ok subOut =>
                faeRun lib p input fuel ((pc + 1) % usizeSize) iters (acc ++ subOut)
              | .error e =>
                if isFaeException e then
                  faeRun lib p input fuel ((pc + 1) % usizeSize) iters acc
                else .error e
      else .error .unrecognized

/-- The public `Template::render(input)`: `libraryRender(input, nullptr)`
with a fresh iterator map and output stream. -/
def renderT (p : Program) (input : Input) (fuel : Nat) : Except RErr (List Char) :=
  faeRun none p input fuel 0 [] []

/-- `Library::render(templateName, input)`: look the program up, failing
with the not-found `FaeException` when absent, and drive the VM with this
library as the include resolver. -/
def libraryRender (lib : Library) (name : List Char) (input : Input) (fuel : Nat) :
    Except RErr (List Char) :=
  match libFind lib name with
  | none => .error .notFound
  | some p => faeRun (some lib) p input fuel 0 [] []

/-! ## Concrete fixtures used by the claims -/

/-- Output of a `for` body `$(x)` over a container: the concatenation, in
container order, of what the VM emits for each element. -/
def emitJoin (l : List Value) : List Char := (l.map emitVal).flatten

/-- The template of the loop scenario, `$(for n in collection)$(n)$(end)`. -/
def forSrc : List Char := "$(for n in collection)$(n)$(end)".data

/-- The program `compile` produces for `forSrc`. -/
def pFor : Program :=
  ⟨[], ["n".data, "collection".data], [],
   [0x6000, 0x6001, 0xA005, 0x4000, 0xC002, 0]⟩

/-- The template of the presence-test scenario, `$(if v)found$(end)`. -/
def ifSrc : List Char := "$(if v)found$(end)".data

/-- The program `compile` produces for `ifSrc`. -/
def pIf : Program :=
  ⟨["found".data], ["v".data], [], [0x6000, 0x8003, 0x2000, 0]⟩

/-- `t1.txt` of the library test: `Hello, $(place)`. -/
def pT1 : Program :=
  ⟨["Hello, ".data], ["place".data], [], [0x2000, 0x4000, 0]⟩

/-- `inc.txt` of the library test:
`$(include t1.txt) - $(include nested/t3.txt)`. -/
def pInc : Program :=
  ⟨[" - ".data], [], ["t1.txt".data, "nested/t3.txt".data],
   [0xE000, 0x2000, 0xE001, 0]⟩

/-- The non-recursive library of the test suite: `nested/t3.txt` was not
scanned, so only `inc.txt` and `t1.txt` are present. -/
def libNR : Library := [("inc.txt".data, pInc), ("t1.txt".data, pT1)]

/-- A template whose only command is an include: `$(include t.txt)ok`. -/
def incOkSrc : List Char := "$(include t.txt)ok".data

/-- The program `compile` produces for `incOkSrc`. -/
def pIncOk : Program :=
  ⟨["ok".data], [], ["t.txt".data], [0xE000, 0x2000, 0]⟩

/-- One repetition of the substitution command `$(v)`. -/
def vCmd : List Char := "$(v)".data

/-- `n` adjacent copies of `$(v)`. -/
def vReps (n : Nat) : List Char := (List.replicate n vCmd).flatten

/-- A source with 8192 instructions in front of its `$(end)`: one `if` head
(two instructions) followed by 8190 substitutions. Patching the `if`'s
`FalseJump` with the resulting `end` position 8192 = 0x2000 overflows the
13-bit operand field. -/
def c4src : List Char := ("$(if a)".data ++ vReps 8190) ++ "$(end)".data

/-- The compile-loop state after the `if` head and `j` substitutions of
`c4src` have been processed. -/
def c4state (j : Nat) : CState :=
  ⟨[], ["a".data, "v".data], [], [0x6000, 0x8000] ++ List.replicate j 0x4001, [1]⟩

/-- The program `compile` produces for `c4src`: the `FalseJump` placeholder
at PC 1, patched with 0x2000, has turned into 0xA000 — opcode field
`ListEndJump`, operand 0. -/
def c4prog : Program :=
  ⟨[], ["a".data, "v".data], [],
   ([0x6000, 0xA000] ++ List.replicate 8190 0x4001) ++ [0]⟩

/-- Opcode field of a packed 16-bit instruction (its top three bits). -/
def opcodeField (i : Nat) : Nat := i / 0x2000

/-- The program `compile` produces for `a$(x)`: no fragment, no `Copy` —
the one-character literal `a` has been dropped. -/
def c1prog : Program := ⟨[], ["x".data], [], [0x4000, 0]⟩

/-- The program `compile` produces for the unclosed block `$(if x)`: the
`FalseJump` placeholder at PC 1 still has operand 0, and compilation
nevertheless succeeded. -/
def c2prog : Program := ⟨[], ["x".data], [], [0x6000, 0x8000, 0]⟩

/-- The program `compile` produces for the command-free source `hi`. -/
def pHi : Program := ⟨["hi".data], [], [], [0x2000, 0]⟩

/-- The program `compile` produces for `$(x)`. -/
def pSubX : Program := ⟨[], ["x".data], [], [0x4000, 0]⟩

/-- The wide program `compileW` produces for `c4src`: instruction 1 is
`(FalseJump, 0x2000)` — intended opcode 4, operand 8192, one past the
13-bit operand range. -/
def c4progW : ProgramW :=
  ⟨[], ["a".data, "v".data], [],
   ([(3, 0), (4, 0x2000)] ++ List.replicate 8190 ((2 : Nat), (1 : Nat))) ++ [(0, 0)]⟩

/-- The wide compile-loop state after the `if` head and `j` substitutions
of `c4src` have been processed. -/
def c4stateW (j : Nat) : WState :=
  ⟨[], ["a".data, "v".data], [],
   [(3, 0), (4, 0)] ++ List.replicate j ((2 : Nat), (1 : Nat)), [1]⟩

/-- The compile-loop state after the `if` head of `c4src` alone has been
processed. -/
def cSt1 : CState := ⟨[], ["a".data], [], [0x6000, 0x8000], [1]⟩

/-- The compile-loop state of `c4src` after its closing `$(end)`: the
patched placeholder reads 0xA000. -/
def cEnd : CState :=
  ⟨[], ["a".data, "v".data], [], [0x6000, 0xA000] ++ List.replicate 8190 0x4001, []⟩

/-- The wide compile-loop state after the `if` head of `c4src` alone. -/
def cSt1W : WState := ⟨[], ["a".data], [], [(3, 0), (4, 0)], [1]⟩

/-- The wide compile-loop state of `c4src` after its closing `$(end)`. -/
def cEndW : WState :=
  ⟨[], ["a".data, "v".data], [],
   [(3, 0), (4, 0x2000)] ++ List.replicate 8190 ((2 : Nat), (1 : Nat)), []⟩

/-- Clean packing of a wide instruction: opcode in the top three bits,
operand in the low thirteen, nothing truncated. An instruction of
`compile` is faithful exactly when it equals the clean packing of the
corresponding wide instruction. -/
def packClean (x : Nat × Nat) : Nat := x.1 * 0x2000 + x.2

/-- Well-formedness of one wide instruction relative to the sizes of the
fragment table (`fl`), variable table (`vl`), include table (`il`) and
instruction stream (`bl`) of its program. -/
def wOk (fl vl il bl : Nat) (x : Nat × Nat) : Prop :=
  x.1 < 8 ∧
  (x.1 = 0 → x.2 = 0) ∧
  (x.1 = 1 → x.2 < fl) ∧
  (x.1 = 2 ∨ x.1 = 3 → x.2 < vl) ∧
  (x.1 = 4 ∨ x.1 = 5 → x.2 ≤ bl) ∧
  (x.1 = 6 → x.2 < bl) ∧
  (x.1 = 7 → x.2 < il)

/-- The simulation relation between a packed compile state and its wide
shadow: equal tables, bytecode related by `packT`, the packed fixup stack
the truncation of the wide one, wide stack entries valid, distinct,
pointing at unpatched placeholders, and every wide instruction
well-formed. -/
structure SimRel (stP : CState) (stW : WState) : Prop where
  frags : stP.fragments = stW.fragments
  vars : stP.varNames = stW.varNames
  incs : stP.includeNames = stW.includeNames
  bc : stP.bytecode = stW.bytecodeW.map packT
  stk : stP.offsetStack = stW.offsetStackW.map (fun i => i % 65536)
  stkLt : ∀ i ∈ stW.offsetStackW, i < stW.bytecodeW.length
  stkGt : stW.offsetStackW.Pairwise (fun a b => b < a)
  stkPh : ∀ i ∈ stW.offsetStackW,
    stW.bytecodeW.get? i = some (4, 0) ∨ stW.bytecodeW.get? i = some (5, 0)
  winv : ∀ x ∈ stW.bytecodeW,
    wOk stW.fragments.length stW.varNames.length stW.includeNames.length
      stW.bytecodeW.length x

/-- Relation between one packed compile step outcome and one wide compile
step outcome. -/
def stepRel : Except CErr (Step CState) → Except CErr (Step WState) → Prop
  | .error e, .error e2 => e = e2
  | .ok (.done s), .ok (.done w) => SimRel s w
  | .ok (.next p s), .ok (.next p2 w) => p = p2 ∧ SimRel s w
  | _, _ => False

/-- The state carried out of one compile step, whether the loop finished
(`done`) or continues (`next`). -/
def stepState {σ : Type} : Step σ → σ
  | .done s => s
  | .next _ s => s

/-- The program compiled from `"ab$(x)"`: a `Copy` of fragment 0, a
`Substitute` of variable 0, and the final `Halt`. -/
def pAb : Program := ⟨[['a', 'b']], [['x']], [], [0x2000, 0x4000, 0]⟩

/-! ## Helper lemmas -/

theorem getC_none_of_le {buf : List Char} {i : Nat} (h : buf.length ≤ i) :
    getC buf i = none := by
  simp [getC, List.get?_eq_none, h]

theorem wrapSub_zero_one : wrapSub 0 1 = usizeSize - 1 := by
  simp [wrapSub, usizeSize]

theorem wrapSub_zero_two : wrapSub 0 2 = usizeSize - 2 := by
  simp [wrapSub, usizeSize]

theorem lookback1_zero {buf : List Char} (h : buf.length < usizeSize) :
    getC buf (wrapSub 0 1) = none := by
  refine getC_none_of_le ?_
  rw [wrapSub_zero_one]
  rw [show usizeSize = 18446744073709551616 from rfl] at h ⊢
  omega

theorem lookback2_zero {buf : List Char} (h : buf.length + 1 < usizeSize) :
    getC buf (wrapSub 0 2) = none := by
  refine getC_none_of_le ?_
  rw [wrapSub_zero_two]
  rw [show usizeSize = 18446744073709551616 from rfl] at h ⊢
  omega

/-! ## C1: the one-character literal flush -/

/-- C1. The claim states that any non-empty literal text between
`processed` and `expStart` — even a single character — is emitted as a
fragment with a `Copy` instruction, so that compiling `a$(x)` emits a
`Copy` of `a` before the `Substitute`. The code's flush guard is
`expStart - processed > 1`, so the single character `a` is dropped:
compiling `a$(x)` yields a program with an empty fragment table, no `Copy`
instruction, and rendering it with `x = 5` produces `5`, not `a5`. -/
theorem fae_c1_single_char_literal_dropped :
    compile "a$(x)".data = .ok c1prog ∧
    c1prog.fragments = [] ∧
    (∀ i ∈ c1prog.bytecode, opcodeField i ≠ 1) ∧
    renderT c1prog [("x".data, .vInt 5)] 3 = .ok "5".data ∧
    "5".data ≠ "a5".data := by
  refine ⟨by decide, rfl, by decide, by decide, by decide⟩

/-! ## C2: unbalanced blocks are not detected -/

/-- C2. The claim states that both unbalance directions fail compilation
with an invalid-template error. Neither does: an unclosed `$(if x)`
compiles successfully into a program whose `FalseJump` placeholder keeps
operand 0 (the leftover fixup-stack entry is silently dropped), and a bare
`$(end)` reaches `offsetStack.top()` on an empty `std::stack`, which is
undefined behaviour, not the `FaeException("Invalid template")` throw. -/
theorem fae_c2_unbalanced_not_detected :
    compile "$(if x)".data = .ok c2prog ∧
    c2prog.bytecode.get? 1 = some 0x8000 ∧
    compile "$(end)".data = .error .stackEmptyUB ∧
    CErr.stackEmptyUB ≠ CErr.invalidTemplate := by
  refine ⟨by decide, by decide, by decide, by decide⟩

/-! ## C3: the escape probes when a source begins with the command introducer -/

/-- C3, counterexample. The claim asserts that for a source beginning with
`$(` the compiler accesses no character before `expStart` and that the
out-of-bounds branch of the `expStart - 1` / `expStart - 2` probes is
unreachable in a total embedding. It is the opposite: the guard
`expStart - 1 >= 0` of the source is tautological on an unsigned index, so
at `expStart = 0` the probe is evaluated at the wrapped index
`2 ^ 64 - 1`, which is out of range for the buffer — the out-of-bounds
(`none`) branch of the Option-valued indexing is exactly the branch taken.
Witnessed on `$(x)`: `findDP` places `expStart` at 0, the probe index is
`usizeSize - 1`, the buffer length does not exceed it, and `getC` returns
through its out-of-range branch. -/
theorem fae_c3_counterexample :
    findDP "$(x)".data 0 = some 0 ∧
    wrapSub 0 1 = usizeSize - 1 ∧
    ("$(x)".data).length ≤ wrapSub 0 1 ∧
    getC "$(x)".data (wrapSub 0 1) = none ∧
    compile "$(x)".data = .ok pSubX :=
  ⟨by decide, wrapSub_zero_one, by decide, by decide, by decide⟩

/-- C3, amended. For every source beginning with `$(` (so `expStart = 0`),
the wrapped probe indices `expStart - 1` and `expStart - 2` are out of
range, both probes return `none`, neither escape branch is taken, and the
compile step proceeds directly to the literal flush and command dispatch —
the escape check is behaviourally skipped, by way of the out-of-range
probes, not by avoiding them. -/
theorem fae_c3_amended (buf : List Char) (st : CState)
    (hlen : buf.length + 1 < usizeSize) (hfind : findDP buf 0 = some 0) :
    getC buf (wrapSub 0 1) = none ∧ getC buf (wrapSub 0 2) = none ∧
    compileStep buf 0 st = dispatch buf 0 0 st := by
  have h1 : getC buf (wrapSub 0 1) = none := lookback1_zero (Nat.lt_of_succ_lt hlen)
  have h2 : getC buf (wrapSub 0 2) = none := lookback2_zero hlen
  refine ⟨h1, h2, ?_⟩
  simp [compileStep, hfind, h1]

/-- Witness for C3's amended theorem at the concrete source `$(x)`. -/
theorem fae_c3_amended_witness :
    ("$(x)".data.length + 1 < usizeSize) ∧ findDP "$(x)".data 0 = some 0 ∧
    (getC "$(x)".data (wrapSub 0 1) = none ∧ getC "$(x)".data (wrapSub 0 2) = none ∧
      compileStep "$(x)".data 0 initCState = dispatch "$(x)".data 0 0 initCState) :=
  ⟨by decide, by decide, fae_c3_amended "$(x)".data initCState (by decide) (by decide)⟩

/-! ## C8: compiled programs end in Halt -/

/-- C8. For every source string accepted by `compile`, the resulting
bytecode vector is non-empty and its last instruction is `Halt`: the
source pushes `Opcode::Halt` unconditionally after the scan loop. -/
theorem fae_c8_ends_in_halt (buf : List Char) (p : Program)
    (h : compile buf = .ok p) :
    p.bytecode ≠ [] ∧ p.bytecode.getLast? = some 0 := by
  unfold compile at h
  cases hl : compileLoop buf (buf.length + 1) 0 initCState with
  | error e => rw [hl] at h; exact absurd h (by simp)
  | ok st =>
    rw [hl] at h
    have hp : p = ⟨st.fragments, st.varNames, st.includeNames, st.bytecode ++ [0]⟩ := by
      cases h; rfl
    subst hp
    refine ⟨by simp, ?_⟩
    simp [List.getLast?_concat]

/-- Witness for C8 at the concrete source `hi`. -/
theorem fae_c8_ends_in_halt_witness :
    compile "hi".data = .ok pHi ∧
    pHi.bytecode ≠ [] ∧ pHi.bytecode.getLast? = some 0 :=
  ⟨by decide, fae_c8_ends_in_halt "hi".data pHi (by decide)⟩

/-! ## C9: rendering is deterministic -/

/-- C9. Rendering is deterministic: the render-scoped iterator map and
output buffer are locals of one render call in the source, which the
embedding reflects by threading them as per-call state; a render is a pure
function of the program, the bindings and the library, so two calls with
the same arguments return the same string. -/
theorem fae_c9_deterministic (p : Program) (input : Input) (fuel : Nat) :
    renderT p input fuel = renderT p input fuel ∧
    ∀ (lib : Library) (name : List Char),
      libraryRender lib name input fuel = libraryRender lib name input fuel :=
  ⟨rfl, fun _ _ => rfl⟩

/-! ## C5 helpers: per-PC step lemmas for the loop program -/

theorem forStep0 (input : Input) (f : Nat) (iters : Iters) (acc : List Char) :
    faeRun none pFor input (f+1) 0 iters acc = faeRun none pFor input f 1 iters acc := rfl

theorem forStep1 (input : Input) (f : Nat) (iters : Iters) (acc : List Char) :
    faeRun none pFor input (f+1) 1 iters acc = faeRun none pFor input f 2 iters acc := rfl

theorem forStep2 (input : Input) (f : Nat) (iters : Iters) (acc : List Char) :
    faeRun none pFor input (f+1) 2 iters acc =
      (match advanceContainer pFor input iters 0 1 with
       | .error e => .error e
       | .ok (true, its) => faeRun none pFor input f 3 its acc
       | .ok (false, its) => faeRun none pFor input f 5 its acc) := rfl

theorem forStep3 (input : Input) (f : Nat) (iters : Iters) (acc : List Char) :
    faeRun none pFor input (f+1) 3 iters acc =
      (match printVar pFor input iters 0 with
       | .error e => .error e
       | .ok out => faeRun none pFor input f 4 iters (acc ++ out)) := rfl

theorem forStep4 (input : Input) (f : Nat) (iters : Iters) (acc : List Char) :
    faeRun none pFor input (f+1) 4 iters acc = faeRun none pFor input f 2 iters acc := rfl

theorem forStep5 (input : Input) (f : Nat) (iters : Iters) (acc : List Char) :
    faeRun none pFor input (f+1) 5 iters acc = .ok acc := rfl

theorem c5loop (post : List Value) : ∀ (j : Nat) (l : List Value) (v : Value) (acc : List Char),
    l.drop (j+1) = post → j < l.length →
    faeRun none pFor [("n".data, v), ("collection".data, .vList l)]
      (3 * post.length + 2) 2 [(0, ("collection".data, j))] acc
      = .ok (acc ++ emitJoin post) := by
  induction post with
  | nil =>
    intro j l v acc hdrop hj
    have hlen : l.length = j + 1 := by
      have := List.drop_eq_nil_iff.mp hdrop
      omega
    have hadv : advanceContainer pFor [("n".data, v), ("collection".data, .vList l)]
        [(0, ("collection".data, j))] 0 1 = .ok (false, []) := by
      simp [advanceContainer, pFor, inputFind, itersFind, itersErase, hlen]
    show faeRun none pFor _ (1 + 1) 2 _ acc = _
    rw [forStep2, hadv]
    show faeRun none pFor _ (0 + 1) 5 [] acc = _
    rw [forStep5]
    simp [emitJoin]
  | cons e es ih =>
    intro j l v acc hdrop hj
    have hlt : j + 1 < l.length := by
      have h1 := List.length_drop (j+1) l
      rw [hdrop] at h1
      simp at h1
      omega
    have hget : l[j+1]? = some e := by
      have h2 := List.getElem?_drop l (j+1) 0
      rw [hdrop] at h2
      simpa using h2.symm
    have h0 : ¬(l.length = 0) := by omega
    have h1 : ¬(j + 1 = l.length) := by omega
    have hadv : advanceContainer pFor [("n".data, v), ("collection".data, .vList l)]
        [(0, ("collection".data, j))] 0 1
        = .ok (true, [(0, ("collection".data, j + 1))]) := by
      simp [advanceContainer, pFor, inputFind, itersFind, itersSet, h0, h1]
    have hpv : printVar pFor [("n".data, v), ("collection".data, .vList l)]
        [(0, ("collection".data, j + 1))] 0 = .ok (emitVal e) := by
      simp [printVar, itersFind, inputFind, pFor, hget]
    have hdrop2 : l.drop (j + 1 + 1) = es := by
      rw [show j + 1 + 1 = (j + 1) + 1 from rfl, ← List.drop_drop, hdrop]
      rfl
    show faeRun none pFor _ ((3 * es.length + 4) + 1) 2 _ acc = _
    rw [forStep2, hadv]
    show faeRun none pFor _ ((3 * es.length + 3) + 1) 3 _ acc = _
    rw [forStep3, hpv]
    show faeRun none pFor _ ((3 * es.length + 2) + 1) 4 _ _ = _
    rw [forStep4]
    rw [ih (j+1) l v (acc ++ emitVal e) hdrop2 hlt]
    simp [emitJoin]

/-- C5. Rendering `$(for n in collection)$(n)$(end)` executes the body
once per element of the container bound to `collection`, in container
order, with `$(n)` emitting the current element and shadowing the binding
entry named `n` (the theorem binds `n` to an arbitrary value `v`, which
never appears in the output): for every container contents `l` the output
is the concatenation of the elements' printed forms, an empty container
yields empty output, and an unbound container name skips the body with no
output and no error. -/
theorem fae_c5_for_loop :
    compile forSrc = .ok pFor ∧
    ∀ (l : List Value) (v : Value),
      renderT pFor [("n".data, v), ("collection".data, .vList l)] (3 * l.length + 4)
        = .ok (emitJoin l) ∧
      renderT pFor [("n".data, v)] 4 = .ok [] := by
  refine ⟨by decide, fun l v => ⟨?_, by rfl⟩⟩
  cases l with
  | nil => rfl
  | cons e es =>
    show faeRun none pFor _ ((3 * es.length + 6) + 1) 0 [] [] = _
    rw [forStep0]
    show faeRun none pFor _ ((3 * es.length + 5) + 1) 1 [] [] = _
    rw [forStep1]
    have hadv0 : advanceContainer pFor
        [("n".data, v), ("collection".data, .vList (e :: es))] [] 0 1
        = .ok (true, [(0, ("collection".data, 0))]) := rfl
    show faeRun none pFor _ ((3 * es.length + 4) + 1) 2 [] [] = _
    rw [forStep2, hadv0]
    have hpv0 : printVar pFor [("n".data, v), ("collection".data, .vList (e :: es))]
        [(0, ("collection".data, 0))] 0 = .ok (emitVal e) := rfl
    show faeRun none pFor _ ((3 * es.length + 3) + 1) 3 _ [] = _
    rw [forStep3, hpv0]
    show faeRun none pFor _ ((3 * es.length + 2) + 1) 4 _ _ = _
    rw [forStep4]
    rw [c5loop es 0 (e :: es) v ([] ++ emitVal e) rfl (by simp)]
    simp [emitJoin]

/-! ## C6: the if body runs on presence, not truthiness -/

/-- C6. The body of `$(if v)…$(end)` executes if and only if `v` is
present when the `FalseJump` runs, regardless of the bound value — a
binding of `false`, `0` or the empty string still executes the body — and
an unbound name skips it without error: for every binding map, rendering
`$(if v)found$(end)` yields `found` exactly when `v` is bound (to any
value) and the empty string when it is not, with no error either way. -/
theorem fae_c6_if_presence_not_truthiness :
    compile ifSrc = .ok pIf ∧
    ∀ (input : Input),
      ((inputFind input "v".data).isSome = true →
        renderT pIf input 4 = .ok "found".data) ∧
      (inputFind input "v".data = none →
        renderT pIf input 4 = .ok []) := by
  refine ⟨by decide, fun input => ?_⟩
  have s1 : faeRun none pIf input 4 0 [] [] = faeRun none pIf input 3 1 [] [] := rfl
  have s2 : faeRun none pIf input 3 1 [] [] =
      (if (inputFind input "v".data).isSome then faeRun none pIf input 2 2 [] []
       else faeRun none pIf input 2 3 [] []) := by
    rw [show faeRun none pIf input 3 1 [] [] = (match varExists pIf input [] 0 with
          | .error e => .error e
          | .ok true => faeRun none pIf input 2 2 [] []
          | .ok false => faeRun none pIf input 2 ((wrapSub 3 1 + 1) % usizeSize) [] [])
        from rfl]
    rw [show varExists pIf input [] 0 = .ok ((inputFind input "v".data).isSome) from by
      simp [varExists, pIf, itersFind]]
    rw [show ((wrapSub 3 1 + 1) % usizeSize) = 3 from rfl]
    cases h : (inputFind input "v".data).isSome <;> simp
  constructor
  · intro h
    show faeRun none pIf input 4 0 [] [] = .ok "found".data
    rw [s1, s2, h, if_pos rfl]
    rfl
  · intro h
    show faeRun none pIf input 4 0 [] [] = .ok []
    rw [s1, s2, h]
    rfl

/-- Witness for C6 at `v = false` (body runs) and at the empty binding map
(body skipped, no error). -/
theorem fae_c6_if_presence_not_truthiness_witness :
    renderT pIf [("v".data, .vBool false)] 4 = .ok "found".data ∧
    renderT pIf [] 4 = .ok [] :=
  ⟨(fae_c6_if_presence_not_truthiness.2 [("v".data, .vBool false)]).1 (by decide),
   (fae_c6_if_presence_not_truthiness.2 []).2 rfl⟩

/-! ## C7: include failures are swallowed, direct lookups are not -/

/-- C7. Rendering through a `Library`, a failure to resolve
`$(include t)` — here `nested/t3.txt` absent from the non-recursive
library — contributes empty output for that include and does not abort the
enclosing render, which still returns the rest of its output
(`Hello, Mars - `); a direct `Library::render` call with the same absent
name fails with the not-found error, and in general a direct call on any
unmapped name does. -/
theorem fae_c7_include_failures_swallowed :
    libraryRender libNR "inc.txt".data [("place".data, .vStr "Mars".data)] 12
      = .ok "Hello, Mars - ".data ∧
    libFind libNR "nested/t3.txt".data = none ∧
    libraryRender libNR "nested/t3.txt".data [("place".data, .vStr "Mars".data)] 12
      = .error .notFound ∧
    ∀ (lib : Library) (name : List Char) (input : Input) (fuel : Nat),
      libFind lib name = none → libraryRender lib name input fuel = .error .notFound := by
  refine ⟨by decide, by decide, by decide, fun lib name input fuel h => ?_⟩
  simp [libraryRender, h]

/-- Witness for C7's general not-found conjunct on an empty library. -/
theorem fae_c7_include_failures_swallowed_witness :
    libraryRender [] "zzz".data [] 7 = .error .notFound :=
  fae_c7_include_failures_swallowed.2.2.2 [] "zzz".data [] 7 (by decide)

/-! ## C10: includes without a library are no-ops -/

/-- C10. A template containing `$(include t.txt)` compiles successfully,
and rendering it through the public `Template::render(input)` — where the
include callback's `pLibrary` is null — executes the `Include` instruction
as a no-op for every binding map: the include contributes nothing and no
error is raised, so `$(include t.txt)ok` renders to `ok`. -/
theorem fae_c10_direct_render_include_noop :
    compile incOkSrc = .ok pIncOk ∧
    ∀ (input : Input), renderT pIncOk input 4 = .ok "ok".data :=
  ⟨by decide, fun _ => rfl⟩

/-! ## C4 helpers: the operand-overflow family -/

theorem vReps_succ (m : Nat) : vReps (m + 1) = '$' :: '(' :: 'v' :: ')' :: vReps m := rfl

theorem vReps_length : ∀ n, (vReps n).length = 4 * n := by
  intro n
  induction n with
  | zero => rfl
  | succ m ih => rw [vReps_succ]; simp [ih]; omega

theorem c4len : c4src.length = 32773 := by
  rw [show c4src = ("$(if a)".data ++ vReps 8190) ++ "$(end)".data from rfl]
  rw [List.length_append, List.length_append, vReps_length]
  rfl

theorem c4drop6 : ∀ j, j ≤ 8190 →
    c4src.drop (6 + 4 * j) = ')' :: (vReps (8190 - j) ++ "$(end)".data) := by
  intro j
  induction j with
  | zero => intro _; rfl
  | succ m ih =>
    intro hm
    have hmax : m ≤ 8190 := by omega
    have h1 : 6 + 4 * (m + 1) = (6 + 4 * m) + 4 := by omega
    rw [h1, ← List.drop_drop, ih hmax]
    obtain ⟨k, hk⟩ : ∃ k, 8190 - m = k + 1 := ⟨8189 - m, by omega⟩
    rw [hk, vReps_succ]
    have h2 : 8190 - (m + 1) = k := by omega
    rw [h2]
    rfl

theorem c4drop7 (j : Nat) (hj : j ≤ 8190) :
    c4src.drop (7 + 4 * j) = vReps (8190 - j) ++ "$(end)".data := by
  have h1 : 7 + 4 * j = (6 + 4 * j) + 1 := by omega
  rw [h1, ← List.drop_drop, c4drop6 j hj]
  rfl

theorem c4getC6 (j : Nat) (hj : j ≤ 8190) : getC c4src (6 + 4 * j) = some ')' := by
  have h := List.getElem?_drop c4src (6 + 4 * j) 0
  rw [c4drop6 j hj] at h
  simp at h
  simp [getC, h]

theorem wrapSub_one {n : Nat} (h1 : 1 ≤ n) (h2 : n < usizeSize) : wrapSub n 1 = n - 1 := by
  rw [show usizeSize = 18446744073709551616 from rfl] at h2
  simp [wrapSub, usizeSize]
  omega

theorem scanDP_dp (r : List Char) : scanDP ('$' :: '(' :: r) = some 0 := rfl

theorem c4find (j : Nat) (hj : j ≤ 8190) : findDP c4src (7 + 4 * j) = some (7 + 4 * j) := by
  rw [findDP, c4drop7 j hj]
  cases hko : 8190 - j with
  | zero => rfl
  | succ m => rw [vReps_succ]; rfl

theorem usize_lit : usizeSize = 18446744073709551616 := rfl

theorem matchEnd_v (r : List Char) : matchEnd ('v' :: r) = none := rfl

theorem matchVar_v (r : List Char) : matchVar ('v' :: ')' :: r) = some (['v'], 2) := rfl

theorem addVariable_v : addVariable ["a".data, "v".data] ['v'] = (1, ["a".data, "v".data]) := rfl

theorem compileStep_dispatch (buf : List Char) (pr e : Nat) (st : CState)
    (hf : findDP buf pr = some e) (h1 : ¬ getC buf (wrapSub e 1) = some '\\') :
    compileStep buf pr st = dispatch buf pr e st := by
  unfold compileStep
  rw [hf]
  simp [h1]

theorem c4stepP (j : Nat) (hj : j < 8190) :
    compileStep c4src (7 + 4 * j) (c4state j)
      = .ok (.next (7 + 4 * (j + 1)) (c4state (j + 1))) := by
  obtain ⟨m, hm⟩ : ∃ m, 8190 - j = m + 1 := ⟨8189 - j, by omega⟩
  have hw : wrapSub (7 + 4 * j) 1 = 6 + 4 * j := by
    rw [wrapSub_one (by omega) (by rw [usize_lit]; omega)]
    omega
  have hd : c4src.drop (7 + 4 * j + 2) = 'v' :: ')' :: (vReps m ++ "$(end)".data) := by
    rw [← List.drop_drop, c4drop7 j (Nat.le_of_lt hj), hm, vReps_succ]
    rfl
  rw [compileStep_dispatch c4src (7 + 4 * j) (7 + 4 * j) (c4state j)
    (c4find j (Nat.le_of_lt hj))
    (by rw [hw, c4getC6 j (Nat.le_of_lt hj)]; decide)]
  have hflush : ¬(7 + 4 * j - (7 + 4 * j) > 1) := by omega
  simp only [dispatch, dispatchCore, hflush, if_false, hd, matchEnd_v, matchVar_v, addVariable_v]
  have harith : 7 + 4 * j + 2 + 2 = 7 + 4 * (j + 1) := by omega
  simp [c4state, harith, List.append_assoc, List.replicate_succ']
  exact ⟨rfl, rfl⟩

theorem matchEnd_end (r : List Char) : matchEnd ('e' :: 'n' :: 'd' :: ')' :: r) = some 4 := rfl

theorem t1 : (c4state 8190).bytecode.get? 1 = some 0x8000 := rfl

theorem t2 : (c4state 8190).bytecode.length = 8192 := by
  show ([0x6000, 0x8000] ++ List.replicate 8190 0x4001).length = 8192
  rw [List.length_append, List.length_replicate]
  rfl

theorem t3 : wrapSub (7 + 4 * 8190) 1 = 6 + 4 * 8190 := by
  rw [wrapSub_one (by omega) (by rw [usize_lit]; omega)]

theorem t4 : c4src.drop (7 + 4 * 8190 + 2) = 'e' :: 'n' :: 'd' :: ')' :: [] := by
  rw [← List.drop_drop, c4drop7 8190 (Nat.le_refl 8190)]
  rfl

theorem dispatch_end (buf : List Char) (pr e : Nat) (st : CState) (p0 : Nat)
    (rest : List Nat) (placed : Nat) (r : List Char)
    (hflush : ¬(e - pr > 1))
    (hd : buf.drop (e + 2) = 'e' :: 'n' :: 'd' :: ')' :: r)
    (hstk : st.offsetStack = p0 :: rest)
    (hbc : st.bytecode.get? p0 = some placed)
    (hnotLEJ : ¬(placed &&& 0xE000 = 0xA000)) :
    dispatch buf pr e st = .ok (.next (e + 2 + 4)
      { st with bytecode := st.bytecode.set p0 ((placed ||| st.bytecode.length) % 65536),
                offsetStack := rest }) := by
  simp only [dispatch, dispatchCore, hd, matchEnd_end, hstk, hbc, hflush, if_false, hnotLEJ]

theorem c4stepEnd :
    compileStep c4src (7 + 4 * 8190) (c4state 8190) = .ok (.next 32773 cEnd) := by
  rw [compileStep_dispatch c4src (7 + 4 * 8190) (7 + 4 * 8190) (c4state 8190)
    (c4find 8190 (Nat.le_refl 8190))
    (by rw [t3, c4getC6 8190 (Nat.le_refl 8190)]; decide)]
  rw [dispatch_end c4src (7 + 4 * 8190) (7 + 4 * 8190) (c4state 8190) 1 [] 0x8000 []
    (by omega) t4 rfl t1 (by decide)]
  rw [t2]
  have hset : (c4state 8190).bytecode.set 1 ((0x8000 ||| 8192) % 65536) = cEnd.bytecode := rfl
  rw [hset]
  rfl

theorem compileLoop_step (buf : List Char) (f pr : Nat) (st : CState) (p2 : Nat) (s2 : CState)
    (hlt : pr < buf.length) (hstep : compileStep buf pr st = .ok (.next p2 s2)) :
    compileLoop buf (f + 1) pr st = compileLoop buf f p2 s2 := by
  simp [compileLoop, hlt, hstep]

theorem compileLoop_stop (buf : List Char) (f pr : Nat) (st : CState)
    (h : ¬ pr < buf.length) :
    compileLoop buf (f + 1) pr st = .ok st := by
  simp [compileLoop, h]

theorem c4loopP : ∀ (r j extra : Nat), j + r = 8190 →
    compileLoop c4src (r + extra + 2) (7 + 4 * j) (c4state j) = .ok cEnd := by
  intro r
  induction r with
  | zero =>
    intro j extra hj
    have hj8 : j = 8190 := by omega
    subst hj8
    rw [show 0 + extra + 2 = (extra + 1) + 1 from by omega]
    rw [compileLoop_step c4src (extra + 1) (7 + 4 * 8190) (c4state 8190) 32773 cEnd
      (by rw [c4len]; omega) c4stepEnd]
    exact compileLoop_stop c4src extra 32773 cEnd (by rw [c4len]; omega)
  | succ r ih =>
    intro j extra hj
    rw [show r + 1 + extra + 2 = (r + extra + 2) + 1 from by omega]
    rw [compileLoop_step c4src (r + extra + 2) (7 + 4 * j) (c4state j)
      (7 + 4 * (j + 1)) (c4state (j + 1)) (by rw [c4len]; omega) (c4stepP j (by omega))]
    exact ih (j + 1) extra (by omega)

theorem dispatch_if (buf : List Char) (pr e : Nat) (st : CState) (name : List Char)
    (mlen idx : Nat) (vn2 : List (List Char))
    (hflush : ¬(e - pr > 1))
    (hend : matchEnd (buf.drop (e + 2)) = none)
    (hvar : matchVar (buf.drop (e + 2)) = none)
    (hif : matchIf (buf.drop (e + 2)) = some (name, mlen))
    (haddv : addVariable st.varNames name = (idx, vn2)) :
    dispatch buf pr e st = .ok (.next (e + 2 + mlen)
      { st with varNames := vn2
                bytecode := st.bytecode ++ [(0x6000 ||| idx) % 65536] ++ [0x8000]
                offsetStack :=
                  (((st.bytecode ++ [(0x6000 ||| idx) % 65536] ++ [0x8000]).length - 1) % 65536)
                    :: st.offsetStack }) := by
  simp only [dispatch, dispatchCore, hflush, if_false, hend, hvar, hif, haddv]

theorem c4step0 : compileStep c4src 0 initCState = .ok (.next 7 cSt1) := by
  have hlenS : c4src.length < usizeSize := by rw [c4len, usize_lit]; omega
  have h1 : ¬ getC c4src (wrapSub 0 1) = some '\\' := by
    rw [lookback1_zero hlenS]
    simp
  rw [compileStep_dispatch c4src 0 0 initCState rfl h1]
  rw [dispatch_if c4src 0 0 initCState ['a'] 5 0 [['a']] (by omega) rfl rfl rfl rfl]
  rfl

theorem c4step1 : compileStep c4src 7 cSt1 = .ok (.next 11 (c4state 1)) := by
  have hf7 : findDP c4src 7 = some 7 := by
    have h := c4find 0 (by omega)
    simpa using h
  have hw : wrapSub 7 1 = 6 := by
    rw [wrapSub_one (by omega) (by rw [usize_lit]; omega)]
  have hg : getC c4src 6 = some ')' := by
    have h := c4getC6 0 (by omega)
    simpa using h
  have hd : c4src.drop (7 + 2) = 'v' :: ')' :: (vReps 8189 ++ "$(end)".data) := by
    have h := c4drop7 0 (by omega)
    rw [show (7 : Nat) + 4 * 0 = 7 from rfl] at h
    rw [← List.drop_drop, h, show (8190 : Nat) - 0 = 8189 + 1 from rfl, vReps_succ]
    rfl
  rw [compileStep_dispatch c4src 7 7 cSt1 hf7 (by rw [hw, hg]; decide)]
  have hflush : ¬((7 : Nat) - 7 > 1) := by omega
  simp only [dispatch, dispatchCore, hflush, if_false, hd, matchEnd_v, matchVar_v]
  rw [show addVariable cSt1.varNames ['v'] = (1, ["a".data, "v".data]) from rfl]
  rfl

theorem compile_eq_of_loop (buf : List Char) (st : CState)
    (h : compileLoop buf (buf.length + 1) 0 initCState = .ok st) :
    compile buf = .ok ⟨st.fragments, st.varNames, st.includeNames, st.bytecode ++ [0]⟩ := by
  unfold compile
  rw [h]

theorem c4loopFull : compileLoop c4src (c4src.length + 1) 0 initCState = .ok cEnd := by
  rw [c4len]
  rw [compileLoop_step c4src 32773 0 initCState 7 cSt1 (by rw [c4len]; omega) c4step0]
  rw [show (32773 : Nat) = 32772 + 1 from rfl]
  rw [compileLoop_step c4src 32772 7 cSt1 11 (c4state 1) (by rw [c4len]; omega) c4step1]
  rw [show (32772 : Nat) = 8189 + 24581 + 2 from rfl]
  rw [show (11 : Nat) = 7 + 4 * 1 from rfl]
  rw [c4loopP 8189 1 24581 (by omega)]

theorem c4compileP : compile c4src = .ok c4prog :=
  compile_eq_of_loop c4src cEnd c4loopFull

theorem compileStepW_dispatch (buf : List Char) (pr e : Nat) (st : WState)
    (hf : findDP buf pr = some e) (h1 : ¬ getC buf (wrapSub e 1) = some '\\') :
    compileStepW buf pr st = dispatchW buf pr e st := by
  unfold compileStepW
  rw [hf]
  simp [h1]

theorem addVariableW_v : addVariableW ["a".data, "v".data] ['v'] = (1, ["a".data, "v".data]) := rfl

theorem c4stepW (j : Nat) (hj : j < 8190) :
    compileStepW c4src (7 + 4 * j) (c4stateW j)
      = .ok (.next (7 + 4 * (j + 1)) (c4stateW (j + 1))) := by
  obtain ⟨m, hm⟩ : ∃ m, 8190 - j = m + 1 := ⟨8189 - j, by omega⟩
  have hw : wrapSub (7 + 4 * j) 1 = 6 + 4 * j := by
    rw [wrapSub_one (by omega) (by rw [usize_lit]; omega)]
    omega
  have hd : c4src.drop (7 + 4 * j + 2) = 'v' :: ')' :: (vReps m ++ "$(end)".data) := by
    rw [← List.drop_drop, c4drop7 j (Nat.le_of_lt hj), hm, vReps_succ]
    rfl
  rw [compileStepW_dispatch c4src (7 + 4 * j) (7 + 4 * j) (c4stateW j)
    (c4find j (Nat.le_of_lt hj))
    (by rw [hw, c4getC6 j (Nat.le_of_lt hj)]; decide)]
  have hflush : ¬(7 + 4 * j - (7 + 4 * j) > 1) := by omega
  simp only [dispatchW, dispatchCoreW, hflush, if_false, hd, matchEnd_v, matchVar_v, addVariableW_v]
  have harith : 7 + 4 * j + 2 + 2 = 7 + 4 * (j + 1) := by omega
  simp [c4stateW, harith, List.append_assoc, List.replicate_succ']
  exact ⟨rfl, rfl⟩

theorem tw1 : (c4stateW 8190).bytecodeW.get? 1 = some (4, 0) := rfl

theorem tw2 : (c4stateW 8190).bytecodeW.length = 8192 := by
  show ([(3, 0), (4, 0)] ++ List.replicate 8190 ((2 : Nat), (1 : Nat))).length = 8192
  rw [List.length_append, List.length_replicate]
  rfl

theorem dispatchW_end (buf : List Char) (pr e : Nat) (st : WState) (p0 : Nat)
    (rest : List Nat) (placed : Nat × Nat) (r : List Char)
    (hflush : ¬(e - pr > 1))
    (hd : buf.drop (e + 2) = 'e' :: 'n' :: 'd' :: ')' :: r)
    (hstk : st.offsetStackW = p0 :: rest)
    (hbc : st.bytecodeW.get? p0 = some placed)
    (hnotLEJ : ¬(placed.1 = 5)) :
    dispatchW buf pr e st = .ok (.next (e + 2 + 4)
      { st with bytecodeW := st.bytecodeW.set p0 (placed.1, placed.2 ||| st.bytecodeW.length),
                offsetStackW := rest }) := by
  simp only [dispatchW, dispatchCoreW, hd, matchEnd_end, hstk, hbc, hflush, if_false, hnotLEJ]

theorem c4stepWEnd :
    compileStepW c4src (7 + 4 * 8190) (c4stateW 8190) = .ok (.next 32773 cEndW) := by
  rw [compileStepW_dispatch c4src (7 + 4 * 8190) (7 + 4 * 8190) (c4stateW 8190)
    (c4find 8190 (Nat.le_refl 8190))
    (by rw [t3, c4getC6 8190 (Nat.le_refl 8190)]; decide)]
  rw [dispatchW_end c4src (7 + 4 * 8190) (7 + 4 * 8190) (c4stateW 8190) 1 [] (4, 0) []
    (by omega) t4 rfl tw1 (by decide)]
  rw [tw2]
  have hset : (c4stateW 8190).bytecodeW.set 1 ((4 : Nat), (0 : Nat) ||| 8192)
      = cEndW.bytecodeW := rfl
  rw [hset]
  rfl

theorem compileLoopW_step (buf : List Char) (f pr : Nat) (st : WState) (p2 : Nat) (s2 : WState)
    (hlt : pr < buf.length) (hstep : compileStepW buf pr st = .ok (.next p2 s2)) :
    compileLoopW buf (f + 1) pr st = compileLoopW buf f p2 s2 := by
  simp [compileLoopW, hlt, hstep]

theorem compileLoopW_stop (buf : List Char) (f pr : Nat) (st : WState)
    (h : ¬ pr < buf.length) :
    compileLoopW buf (f + 1) pr st = .ok st := by
  simp [compileLoopW, h]

theorem c4loopW : ∀ (r j extra : Nat), j + r = 8190 →
    compileLoopW c4src (r + extra + 2) (7 + 4 * j) (c4stateW j) = .ok cEndW := by
  intro r
  induction r with
  | zero =>
    intro j extra hj
    have hj8 : j = 8190 := by omega
    subst hj8
    rw [show 0 + extra + 2 = (extra + 1) + 1 from by omega]
    rw [compileLoopW_step c4src (extra + 1) (7 + 4 * 8190) (c4stateW 8190) 32773 cEndW
      (by rw [c4len]; omega) c4stepWEnd]
    exact compileLoopW_stop c4src extra 32773 cEndW (by rw [c4len]; omega)
  | succ r ih =>
    intro j extra hj
    rw [show r + 1 + extra + 2 = (r + extra + 2) + 1 from by omega]
    rw [compileLoopW_step c4src (r + extra + 2) (7 + 4 * j) (c4stateW j)
      (7 + 4 * (j + 1)) (c4stateW (j + 1)) (by rw [c4len]; omega) (c4stepW j (by omega))]
    exact ih (j + 1) extra (by omega)

theorem dispatchW_if (buf : List Char) (pr e : Nat) (st : WState) (name : List Char)
    (mlen idx : Nat) (vn2 : List (List Char))
    (hflush : ¬(e - pr > 1))
    (hend : matchEnd (buf.drop (e + 2)) = none)
    (hvar : matchVar (buf.drop (e + 2)) = none)
    (hif : matchIf (buf.drop (e + 2)) = some (name, mlen))
    (haddv : addVariableW st.varNames name = (idx, vn2)) :
    dispatchW buf pr e st = .ok (.next (e + 2 + mlen)
      { st with varNames := vn2
                bytecodeW := st.bytecodeW ++ [(3, idx)] ++ [(4, 0)]
                offsetStackW :=
                  ((st.bytecodeW ++ [(3, idx)] ++ [(4, 0)]).length - 1) :: st.offsetStackW }) := by
  simp only [dispatchW, dispatchCoreW, hflush, if_false, hend, hvar, hif, haddv]

theorem c4stepW0 : compileStepW c4src 0 initWState = .ok (.next 7 cSt1W) := by
  have hlenS : c4src.length < usizeSize := by rw [c4len, usize_lit]; omega
  have h1 : ¬ getC c4src (wrapSub 0 1) = some '\\' := by
    rw [lookback1_zero hlenS]
    simp
  rw [compileStepW_dispatch c4src 0 0 initWState rfl h1]
  rw [dispatchW_if c4src 0 0 initWState ['a'] 5 0 [['a']] (by omega) rfl rfl rfl rfl]
  rfl

theorem c4stepW1 : compileStepW c4src 7 cSt1W = .ok (.next 11 (c4stateW 1)) := by
  have hf7 : findDP c4src 7 = some 7 := by
    have h := c4find 0 (by omega)
    simpa using h
  have hw : wrapSub 7 1 = 6 := by
    rw [wrapSub_one (by omega) (by rw [usize_lit]; omega)]
  have hg : getC c4src 6 = some ')' := by
    have h := c4getC6 0 (by omega)
    simpa using h
  have hd : c4src.drop (7 + 2) = 'v' :: ')' :: (vReps 8189 ++ "$(end)".data) := by
    have h := c4drop7 0 (by omega)
    rw [show (7 : Nat) + 4 * 0 = 7 from rfl] at h
    rw [← List.drop_drop, h, show (8190 : Nat) - 0 = 8189 + 1 from rfl, vReps_succ]
    rfl
  rw [compileStepW_dispatch c4src 7 7 cSt1W hf7 (by rw [hw, hg]; decide)]
  have hflush : ¬((7 : Nat) - 7 > 1) := by omega
  simp only [dispatchW, dispatchCoreW, hflush, if_false, hd, matchEnd_v, matchVar_v]
  rw [show addVariableW cSt1W.varNames ['v'] = (1, ["a".data, "v".data]) from rfl]
  rfl

theorem compileW_eq_of_loop (buf : List Char) (st : WState)
    (h : compileLoopW buf (buf.length + 1) 0 initWState = .ok st) :
    compileW buf = .ok ⟨st.fragments, st.varNames, st.includeNames, st.bytecodeW ++ [(0, 0)]⟩ := by
  unfold compileW
  rw [h]

theorem c4loopWFull : compileLoopW c4src (c4src.length + 1) 0 initWState = .ok cEndW := by
  rw [c4len]
  rw [compileLoopW_step c4src 32773 0 initWState 7 cSt1W (by rw [c4len]; omega) c4stepW0]
  rw [show (32773 : Nat) = 32772 + 1 from rfl]
  rw [compileLoopW_step c4src 32772 7 cSt1W 11 (c4stateW 1) (by rw [c4len]; omega) c4stepW1]
  rw [show (32772 : Nat) = 8189 + 24581 + 2 from rfl]
  rw [show (11 : Nat) = 7 + 4 * 1 from rfl]
  rw [c4loopW 8189 1 24581 (by omega)]

theorem c4compileW : compileW c4src = .ok c4progW :=
  compileW_eq_of_loop c4src cEndW c4loopWFull

/-- C4, counterexample. The claim asserts that operands never overflow the
13-bit field into the opcode bits for programs of any size. `c4src` — one
`$(if a)` head, 8190 copies of `$(v)`, then `$(end)` — is accepted by
`compile`, and patching the `FalseJump` placeholder at PC 1 with the end
position 8192 = 0x2000 overflows: the wide (intended) instruction is
`(FalseJump = 4, 0x2000)` with its operand one past 0x1FFF, while the
packed instruction 0xA000 has opcode field 5 (`ListEndJump`), not the
intended 4 — the overflowing bit corrupted the opcode. -/
theorem fae_c4_counterexample :
    compile c4src = .ok c4prog ∧
    compileW c4src = .ok c4progW ∧
    c4progW.bytecodeW.get? 1 = some (4, 0x2000) ∧
    c4prog.bytecode.get? 1 = some 0xA000 ∧
    opcodeField 0xA000 = 5 ∧
    ¬ opcodeField 0xA000 = 4 ∧
    0x2000 > 0x1FFF ∧
    c4prog.bytecode = c4progW.bytecodeW.map packT := by
  refine ⟨c4compileP, c4compileW, rfl, rfl, rfl, by decide, by decide, ?_⟩
  show c4prog.bytecode = (([(3, 0), (4, 0x2000)]
    ++ List.replicate 8190 ((2 : Nat), (1 : Nat))) ++ [(0, 0)]).map packT
  rw [List.map_append, List.map_append, List.map_replicate]
  rfl

/-! ## The packed/wide compiler simulation (claim C4, amended)

`SimRel` relates a packed compile state to its wide shadow; it is preserved
by every compile step, unconditionally for the emitting branches (the 16-bit
store truncation commutes with the packing) and under a 64 KiB bytecode bound
for the `$(end)` patch branch (the truncated fixup index must still address
the placeholder). From it, any accepted compilation whose result fits the
13-bit operand space is instruction-for-instruction the clean packing of the
wide replay. -/

theorem lorModPow (a b : Nat) : (a ||| b) % 65536 = (a ||| b % 65536) % 65536 := by
  have h16 : (65536 : Nat) = 2 ^ 16 := by norm_num
  apply Nat.eq_of_testBit_eq
  intro i
  simp only [h16, Nat.testBit_mod_two_pow, Nat.testBit_lor]
  by_cases h : i < 16 <;> simp [h]

theorem packT_clean (o a : Nat) (ho : o < 8) (ha : a ≤ 0x1FFF) :
    packT (o, a) = o * 0x2000 + a := by
  have ha2 : a < 2 ^ 13 := by omega
  have h1 : a % 65536 = a := Nat.mod_eq_of_lt (by omega)
  have h2 : (2 : Nat) ^ 13 * o + a = 2 ^ 13 * o ||| a := Nat.mul_add_lt_is_or ha2 o
  have h3 : o * 0x2000 = 2 ^ 13 * o := by ring
  have h4 : o * 0x2000 + a < 65536 := by omega
  show (o * 0x2000 ||| a % 65536) % 65536 = o * 0x2000 + a
  rw [h1, h3, ← h2, Nat.mod_eq_of_lt (by omega)]

theorem wOk_mono {fl vl il bl fl2 vl2 il2 bl2 : Nat} {x : Nat × Nat}
    (h : wOk fl vl il bl x) (h1 : fl ≤ fl2) (h2 : vl ≤ vl2) (h3 : il ≤ il2)
    (h4 : bl ≤ bl2) : wOk fl2 vl2 il2 bl2 x := by
  obtain ⟨a, b, c, d, e, f, g⟩ := h
  exact ⟨a, b, fun hx => by have := c hx; omega, fun hx => by have := d hx; omega,
    fun hx => by have := e hx; omega, fun hx => by have := f hx; omega,
    fun hx => by have := g hx; omega⟩

theorem packT_copy (n : Nat) : (0x2000 ||| n) % 65536 = packT (1, n) := by
  show _ = (1 * 0x2000 ||| n % 65536) % 65536
  rw [Nat.one_mul]
  exact lorModPow 0x2000 n

theorem simRel_addFragment {stP : CState} {stW : WState} (h : SimRel stP stW)
    (frag : List Char) : SimRel (addFragment stP frag) (addFragmentW stW frag) := by
  obtain ⟨hf, hv, hi, hb, hs, hlt, hgt, hph, hw⟩ := h
  refine ⟨by simp [addFragment, addFragmentW, hf], by simp [addFragment, addFragmentW, hv],
    by simp [addFragment, addFragmentW, hi], ?_, by simp [addFragment, addFragmentW, hs],
    ?_, by simpa [addFragmentW] using hgt, ?_, ?_⟩
  · simp only [addFragment, addFragmentW]
    rw [List.map_append, hb, hf, List.map_cons, List.map_nil, packT_copy]
  · intro i hi2
    simp only [addFragmentW] at hi2 ⊢
    have := hlt i hi2
    simp only [List.length_append, List.length_cons, List.length_nil]
    omega
  · intro i hi2
    simp only [addFragmentW] at hi2 ⊢
    have hph2 := hph i hi2
    have hilt := hlt i hi2
    rcases hph2 with h5 | h5
    · exact Or.inl (by rw [List.get?_append hilt]; exact h5)
    · exact Or.inr (by rw [List.get?_append hilt]; exact h5)
  · intro x hx
    simp only [addFragmentW] at hx ⊢
    rcases List.mem_append.mp hx with h5 | h5
    · have := hw x h5
      refine wOk_mono this ?_ ?_ ?_ ?_ <;>
        (try simp only [List.length_append, List.length_cons, List.length_nil]) <;> omega
    · have hx2 : x = (1, (stW.fragments ++ [frag]).length - 1) := by simpa using h5
      subst hx2
      refine ⟨by omega, by simp, ?_, by simp, by simp, by simp, by simp⟩
      intro _
      simp only [List.length_append, List.length_cons, List.length_nil]
      omega


theorem packT_or (o n : Nat) : (o * 0x2000 ||| n) % 65536 = packT (o, n) :=
  lorModPow (o * 0x2000) n

theorem packT_mod (o n : Nat) : packT (o, n % 65536) = packT (o, n) := by
  simp [packT, Nat.mod_mod_of_dvd]

theorem packT_sub (n : Nat) : (0x4000 ||| n) % 65536 = packT (2, n) := by
  have := packT_or 2 n
  rw [show (2 : Nat) * 0x2000 = 0x4000 from by norm_num] at this
  exact this

theorem packT_imm (n : Nat) : (0x6000 ||| n) % 65536 = packT (3, n) := by
  have := packT_or 3 n
  rw [show (3 : Nat) * 0x2000 = 0x6000 from by norm_num] at this
  exact this

theorem packT_jmp (n : Nat) : (0xC000 ||| n) % 65536 = packT (6, n) := by
  have := packT_or 6 n
  rw [show (6 : Nat) * 0x2000 = 0xC000 from by norm_num] at this
  exact this

theorem packT_incl (n : Nat) : (0xE000 ||| n) % 65536 = packT (7, n) := by
  have := packT_or 7 n
  rw [show (7 : Nat) * 0x2000 = 0xE000 from by norm_num] at this
  exact this

theorem packT_fj : (0x8000 : Nat) = packT (4, 0) := by decide

theorem packT_lej : (0xA000 : Nat) = packT (5, 0) := by decide

theorem packT_p4 (n : Nat) : (0x8000 ||| n) % 65536 = packT (4, 0 ||| n) := by
  rw [Nat.zero_or]
  have := packT_or 4 n
  rw [show (4 : Nat) * 0x2000 = 0x8000 from by norm_num] at this
  exact this

theorem packT_p5 (n : Nat) : (0xA000 ||| n) % 65536 = packT (5, 0 ||| n) := by
  rw [Nat.zero_or]
  have := packT_or 5 n
  rw [show (5 : Nat) * 0x2000 = 0xA000 from by norm_num] at this
  exact this

theorem addVariable_rel (vn : List (List Char)) (name : List Char) :
    addVariable vn name = ((addVariableW vn name).1 % 65536, (addVariableW vn name).2) := by
  unfold addVariable addVariableW
  cases h : vn.indexOf? name <;> rfl

theorem addVariableW_lt (vn : List (List Char)) (name : List Char) :
    (addVariableW vn name).1 < (addVariableW vn name).2.length := by
  unfold addVariableW
  cases h : vn.indexOf? name with
  | none => simp
  | some i =>
    simp only [List.indexOf?] at h
    have := (List.findIdx?_eq_some_iff_findIdx_eq.mp h).1
    simpa using this

theorem addVariableW_tbl (vn : List (List Char)) (name : List Char) :
    vn.length ≤ (addVariableW vn name).2.length := by
  unfold addVariableW
  cases h : vn.indexOf? name <;> simp

theorem simRel_appendDollar {stP : CState} {stW : WState} (h : SimRel stP stW) :
    SimRel (appendDollar stP) (appendDollarW stW) := by
  obtain ⟨hf, hv, hi, hb, hs, hlt, hgt, hph, hw⟩ := h
  refine ⟨by simp only [appendDollar, appendDollarW, hf], hv, hi, hb, hs, hlt, hgt, hph, ?_⟩
  intro x hx
  simp only [appendDollarW] at hx ⊢
  have := hw x hx
  refine wOk_mono this ?_ (le_refl _) (le_refl _) (le_refl _)
  simp only [List.length_append, List.length_dropLast, List.length_cons, List.length_nil]
  omega

theorem get?_app {α : Type} {l l2 : List α} {i : Nat} (h : i < l.length) :
    (l ++ l2).get? i = l.get? i := List.get?_append h

theorem stepRel_next {p p2 : Nat} {s : CState} {w : WState} (h1 : p = p2) (h2 : SimRel s w) :
    stepRel (.ok (.next p s)) (.ok (.next p2 w)) := ⟨h1, h2⟩

theorem stepRel_err (e : CErr) : stepRel (.error e) (.error e) := rfl

theorem dispatchCoreSim (buf : List Char) (expStart : Nat)
    {stP : CState} {stW : WState} (h : SimRel stP stW)
    (hstk : ∀ i ∈ stW.offsetStackW, i < 65536) :
    stepRel (dispatchCore buf expStart stP) (dispatchCoreW buf expStart stW) := by
  obtain ⟨hf, hv, hi, hb, hs, hlt, hgt, hph, hw⟩ := h
  simp only [dispatchCore, dispatchCoreW]
  cases hE : matchEnd (buf.drop (expStart + 2)) with
  | some mlen =>
    simp only [hE]
    rw [hs, hb]
    cases hS : stW.offsetStackW with
    | nil =>
      simp only [List.map_nil]
      exact stepRel_err CErr.stackEmptyUB
    | cons p0 rest =>
      simp only [List.map_cons]
      have hp0mem : p0 ∈ stW.offsetStackW := by
        rw [hS]
        exact List.mem_cons_self _ _
      have hp065 : p0 < 65536 := hstk p0 hp0mem
      have hp0lt : p0 < stW.bytecodeW.length := hlt p0 hp0mem
      have hgt2 : List.Pairwise (fun a b => b < a) (p0 :: rest) := by
        rw [hS] at hgt
        exact hgt
      have hrlt : ∀ i ∈ rest, i < p0 := fun i hi2 => (List.pairwise_cons.mp hgt2).1 i hi2
      rw [Nat.mod_eq_of_lt hp065]
      rcases hph p0 hp0mem with hPH | hPH
      · have hgetP : (List.map packT stW.bytecodeW).get? p0 = some 0x8000 := by
          rw [List.get?_map, hPH]
          rfl
        simp only [hgetP, hPH]
        rw [if_neg (by decide : ¬((32768 : Nat) &&& 57344 = 40960)),
            if_neg (by decide : ¬((4 : Nat) = 5))]
        refine stepRel_next rfl ?_
        refine ⟨hf, hv, hi, ?_, rfl, ?_, (List.pairwise_cons.mp hgt2).2, ?_, ?_⟩
        · rw [List.map_set, List.length_map, packT_p4]
        · intro i hi2
          have hmem : i ∈ stW.offsetStackW := by
            rw [hS]
            exact List.mem_cons_of_mem _ hi2
          have := hlt i hmem
          simp only [List.length_set]
          omega
        · intro i hi2
          have hmem : i ∈ stW.offsetStackW := by
            rw [hS]
            exact List.mem_cons_of_mem _ hi2
          have hip : i < p0 := hrlt i hi2
          have hne : p0 ≠ i := by omega
          rcases hph i hmem with h6 | h6
          · exact Or.inl (by rw [List.get?_set_ne _ _ hne]; exact h6)
          · exact Or.inr (by rw [List.get?_set_ne _ _ hne]; exact h6)
        · intro x hx
          rcases List.mem_or_eq_of_mem_set hx with h5 | h5
          · refine wOk_mono (hw x h5) (le_refl _) (le_refl _) (le_refl _) ?_
            simp [List.length_set]
          · subst h5
            simp only [wOk]
            refine ⟨by omega, by omega, by omega, by omega, fun _ => ?_, by omega, by omega⟩
            simp [Nat.zero_or, List.length_set]
      · have hgetP : (List.map packT stW.bytecodeW).get? p0 = some 0xA000 := by
          rw [List.get?_map, hPH]
          rfl
        simp only [hgetP, hPH]
        rw [if_pos (by decide : (40960 : Nat) &&& 57344 = 40960)]
        simp only [if_true]
        refine stepRel_next rfl ?_
        refine ⟨hf, hv, hi, ?_, rfl, ?_, (List.pairwise_cons.mp hgt2).2, ?_, ?_⟩
        · rw [List.map_set, List.map_append]
          simp only [List.map_cons, List.map_nil]
          rw [packT_jmp]
          simp only [List.length_append, List.length_map, List.length_cons, List.length_nil]
          rw [packT_p5]
        · intro i hi2
          have hmem : i ∈ stW.offsetStackW := by
            rw [hS]
            exact List.mem_cons_of_mem _ hi2
          have := hlt i hmem
          simp only [List.length_set, List.length_append, List.length_cons, List.length_nil]
          omega
        · intro i hi2
          have hmem : i ∈ stW.offsetStackW := by
            rw [hS]
            exact List.mem_cons_of_mem _ hi2
          have hip : i < p0 := hrlt i hi2
          have hne : p0 ≠ i := by omega
          rcases hph i hmem with h6 | h6
          · exact Or.inl (by rw [List.get?_set_ne _ _ hne, get?_app (hlt i hmem)]; exact h6)
          · exact Or.inr (by rw [List.get?_set_ne _ _ hne, get?_app (hlt i hmem)]; exact h6)
        · intro x hx
          rcases List.mem_or_eq_of_mem_set hx with h5 | h5
          · rcases List.mem_append.mp h5 with h6 | h6
            · refine wOk_mono (hw x h6) (le_refl _) (le_refl _) (le_refl _) ?_
              simp only [List.length_set, List.length_append, List.length_cons,
                List.length_nil]
              omega
            · have hx2 : x = (6, p0) := by simpa using h6
              subst hx2
              simp only [wOk]
              refine ⟨by omega, by omega, by omega, by omega, by omega, fun _ => ?_, by omega⟩
              simp only [List.length_set, List.length_append, List.length_cons,
                List.length_nil]
              omega
          · subst h5
            simp only [wOk]
            refine ⟨by omega, by omega, by omega, by omega, fun _ => ?_, by omega, by omega⟩
            rw [Nat.zero_or]
            simp only [List.length_set, List.length_append, List.length_cons,
              List.length_nil]
            omega
  | none =>
    cases hV : matchVar (buf.drop (expStart + 2)) with
    | some nm =>
      obtain ⟨name, mlen⟩ := nm
      simp only [hE, hV]
      rcases hAV : addVariableW stW.varNames name with ⟨idx, vT⟩
      have hrel : addVariable stP.varNames name = (idx % 65536, vT) := by
        rw [hv, addVariable_rel, hAV]
      have hvl : stW.varNames.length ≤ vT.length := by
        have := addVariableW_tbl stW.varNames name
        rw [hAV] at this
        exact this
      have hil : idx < vT.length := by
        have := addVariableW_lt stW.varNames name
        rw [hAV] at this
        exact this
      rw [hrel]
      refine stepRel_next rfl ?_
      refine ⟨hf, rfl, hi, ?_, hs, ?_, hgt, ?_, ?_⟩
      · rw [List.map_append, hb]
        dsimp only
        rw [List.map_cons, List.map_nil, packT_sub, packT_mod]
      · intro i hi2
        have := hlt i hi2
        simp only [List.length_append, List.length_cons, List.length_nil]
        omega
      · intro i hi2
        rcases hph i hi2 with h5 | h5
        · exact Or.inl (by rw [get?_app (hlt i hi2)]; exact h5)
        · exact Or.inr (by rw [get?_app (hlt i hi2)]; exact h5)
      · intro x hx
        rcases List.mem_append.mp hx with h5 | h5
        · refine wOk_mono (hw x h5) (le_refl _) hvl (le_refl _) ?_
          simp only [List.length_append, List.length_cons, List.length_nil]
          omega
        · have hx2 : x = (2, idx) := by simpa using h5
          subst hx2
          simp only [wOk]
          refine ⟨by omega, by omega, by omega, fun _ => hil, by omega, by omega, by omega⟩
    | none =>
      cases hI : matchIf (buf.drop (expStart + 2)) with
      | some nm =>
        obtain ⟨name, mlen⟩ := nm
        simp only [hE, hV, hI]
        rcases hAV : addVariableW stW.varNames name with ⟨idx, vT⟩
        have hrel : addVariable stP.varNames name = (idx % 65536, vT) := by
          rw [hv, addVariable_rel, hAV]
        have hvl : stW.varNames.length ≤ vT.length := by
          have := addVariableW_tbl stW.varNames name
          rw [hAV] at this
          exact this
        have hil : idx < vT.length := by
          have := addVariableW_lt stW.varNames name
          rw [hAV] at this
          exact this
        rw [hrel]
        refine stepRel_next rfl ?_
        refine ⟨hf, rfl, hi, ?_, ?_, ?_, ?_, ?_, ?_⟩
        · rw [List.map_append, List.map_append, hb]
          dsimp only
          simp only [List.map_cons, List.map_nil]
          rw [packT_imm, packT_mod, packT_fj]
        · simp only [hb, hs, List.map_cons, List.length_append, List.length_map,
            List.length_cons, List.length_nil]
        · intro i hi2
          rcases List.mem_cons.mp hi2 with h5 | h5
          · subst h5
            simp only [List.length_append, List.length_cons, List.length_nil]
            omega
          · have := hlt i h5
            simp only [List.length_append, List.length_cons, List.length_nil]
            omega
        · refine List.Pairwise.cons ?_ hgt
          intro b hbmem
          have := hlt b hbmem
          simp only [List.length_append, List.length_cons, List.length_nil]
          omega
        · intro i hi2
          rcases List.mem_cons.mp hi2 with h5 | h5
          · subst h5
            refine Or.inl ?_
            have hl2 : ((stW.bytecodeW ++ [(3, idx)]) ++ [((4 : Nat), (0 : Nat))]).length - 1
                = (stW.bytecodeW ++ [(3, idx)]).length := by
              simp only [List.length_append, List.length_cons, List.length_nil]
              omega
            rw [hl2, List.get?_concat_length]
          · have h7 : i < (stW.bytecodeW ++ [(3, idx)]).length := by
              have := hlt i h5
              simp only [List.length_append, List.length_cons, List.length_nil]
              omega
            rcases hph i h5 with h6 | h6
            · exact Or.inl (by rw [get?_app h7, get?_app (hlt i h5)]; exact h6)
            · exact Or.inr (by rw [get?_app h7, get?_app (hlt i h5)]; exact h6)
        · intro x hx
          rcases List.mem_append.mp hx with h5 | h5
          · rcases List.mem_append.mp h5 with h6 | h6
            · refine wOk_mono (hw x h6) (le_refl _) hvl (le_refl _) ?_
              simp only [List.length_append, List.length_cons, List.length_nil]
              omega
            · have hx2 : x = (3, idx) := by simpa using h6
              subst hx2
              simp only [wOk]
              exact ⟨by omega, by omega, by omega, fun _ => hil, by omega, by omega, by omega⟩
          · have hx2 : x = (4, 0) := by simpa using h5
            subst hx2
            simp only [wOk]
            exact ⟨by omega, by omega, by omega, by omega, fun _ => by omega, by omega, by omega⟩
      | none =>
        cases hF : matchFor (buf.drop (expStart + 2)) with
        | some nm =>
          obtain ⟨single, listName, mlen⟩ := nm
          simp only [hE, hV, hI, hF]
          rcases hA1 : addVariableW stW.varNames single with ⟨idx1, v1⟩
          have hrel1 : addVariable stP.varNames single = (idx1 % 65536, v1) := by
            rw [hv, addVariable_rel, hA1]
          have hvl1 : stW.varNames.length ≤ v1.length := by
            have := addVariableW_tbl stW.varNames single
            rw [hA1] at this
            exact this
          have hil1 : idx1 < v1.length := by
            have := addVariableW_lt stW.varNames single
            rw [hA1] at this
            exact this
          rcases hA2 : addVariableW v1 listName with ⟨idx2, v2⟩
          have hrel2 : addVariable v1 listName = (idx2 % 65536, v2) := by
            rw [addVariable_rel, hA2]
          have hvl2 : v1.length ≤ v2.length := by
            have := addVariableW_tbl v1 listName
            rw [hA2] at this
            exact this
          have hil2 : idx2 < v2.length := by
            have := addVariableW_lt v1 listName
            rw [hA2] at this
            exact this
          rw [hrel1]
          dsimp only
          rw [hrel2]
          refine stepRel_next rfl ?_
          refine ⟨hf, rfl, hi, ?_, ?_, ?_, ?_, ?_, ?_⟩
          · rw [List.map_append, List.map_append, List.map_append, hb]
            dsimp only
            simp only [List.map_cons, List.map_nil]
            rw [packT_imm, packT_mod, packT_imm, packT_mod, packT_lej]
          · simp only [hb, hs, List.map_cons, List.length_append, List.length_map,
              List.length_cons, List.length_nil]
          · intro i hi2
            rcases List.mem_cons.mp hi2 with h5 | h5
            · subst h5
              simp only [List.length_append, List.length_cons, List.length_nil]
              omega
            · have := hlt i h5
              simp only [List.length_append, List.length_cons, List.length_nil]
              omega
          · refine List.Pairwise.cons ?_ hgt
            intro b hbmem
            have := hlt b hbmem
            simp only [List.length_append, List.length_cons, List.length_nil]
            omega
          · intro i hi2
            rcases List.mem_cons.mp hi2 with h5 | h5
            · subst h5
              refine Or.inr ?_
              have hl2 : (((stW.bytecodeW ++ [(3, idx1)]) ++ [(3, idx2)])
                    ++ [((5 : Nat), (0 : Nat))]).length - 1
                  = ((stW.bytecodeW ++ [(3, idx1)]) ++ [(3, idx2)]).length := by
                simp only [List.length_append, List.length_cons, List.length_nil]
                omega
              rw [hl2, List.get?_concat_length]
            · have h8 : i < ((stW.bytecodeW ++ [(3, idx1)]) ++ [(3, idx2)]).length := by
                have := hlt i h5
                simp only [List.length_append, List.length_cons, List.length_nil]
                omega
              have h7 : i < (stW.bytecodeW ++ [(3, idx1)]).length := by
                have := hlt i h5
                simp only [List.length_append, List.length_cons, List.length_nil]
                omega
              rcases hph i h5 with h6 | h6
              · exact Or.inl (by rw [get?_app h8, get?_app h7, get?_app (hlt i h5)]; exact h6)
              · exact Or.inr (by rw [get?_app h8, get?_app h7, get?_app (hlt i h5)]; exact h6)
          · intro x hx
            rcases List.mem_append.mp hx with h5 | h5
            · rcases List.mem_append.mp h5 with h6 | h6
              · rcases List.mem_append.mp h6 with h9 | h9
                · refine wOk_mono (hw x h9) (le_refl _) (by dsimp only; omega) (le_refl _) ?_
                  simp only [List.length_append, List.length_cons, List.length_nil]
                  omega
                · have hx2 : x = (3, idx1) := by simpa using h9
                  subst hx2
                  simp only [wOk]
                  exact ⟨by omega, by omega, by omega, fun _ => by omega, by omega,
                    by omega, by omega⟩
              · have hx2 : x = (3, idx2) := by simpa using h6
                subst hx2
                simp only [wOk]
                exact ⟨by omega, by omega, by omega, fun _ => by omega, by omega,
                  by omega, by omega⟩
            · have hx2 : x = (5, 0) := by simpa using h5
              subst hx2
              simp only [wOk]
              exact ⟨by omega, by omega, by omega, by omega, fun _ => by omega,
                by omega, by omega⟩
        | none =>
          cases hInc : matchInclude (buf.drop (expStart + 2)) with
          | some nm =>
            obtain ⟨tgt, mlen⟩ := nm
            simp only [hE, hV, hI, hF, hInc]
            refine stepRel_next rfl ?_
            refine ⟨hf, hv, by rw [hi], ?_, hs, ?_, hgt, ?_, ?_⟩
            · rw [hi, List.map_append, hb]
              simp only [List.map_cons, List.map_nil]
              rw [packT_incl]
            · intro i hi2
              have := hlt i hi2
              simp only [List.length_append, List.length_cons, List.length_nil]
              omega
            · intro i hi2
              rcases hph i hi2 with h5 | h5
              · exact Or.inl (by rw [get?_app (hlt i hi2)]; exact h5)
              · exact Or.inr (by rw [get?_app (hlt i hi2)]; exact h5)
            · intro x hx
              rcases List.mem_append.mp hx with h5 | h5
              · refine wOk_mono (hw x h5) (le_refl _) (le_refl _) ?_ ?_ <;>
                  (try dsimp only) <;>
                  simp only [List.length_append, List.length_cons, List.length_nil] <;>
                  omega
              · have hx2 : x = (7, stW.includeNames.length) := by simpa using h5
                subst hx2
                simp only [wOk]
                refine ⟨by omega, by omega, by omega, by omega, by omega, by omega, ?_⟩
                intro _
                simp only [List.length_append, List.length_cons, List.length_nil]
                omega
          | none =>
            simp only [hE, hV, hI, hF, hInc]
            exact stepRel_err CErr.invalidTemplate

theorem dispatchSim (buf : List Char) (processed expStart : Nat)
    {stP : CState} {stW : WState} (h : SimRel stP stW)
    (hstk : ∀ i ∈ stW.offsetStackW, i < 65536) :
    stepRel (dispatch buf processed expStart stP) (dispatchW buf processed expStart stW) := by
  unfold dispatch dispatchW
  by_cases hfl : expStart - processed > 1
  · rw [if_pos hfl, if_pos hfl]
    refine dispatchCoreSim _ _ (simRel_addFragment h _) ?_
    intro i hi2
    exact hstk i hi2
  · rw [if_neg hfl, if_neg hfl]
    exact dispatchCoreSim _ _ h hstk

theorem stepRel_done {s : CState} {w : WState} (h2 : SimRel s w) :
    stepRel (.ok (.done s)) (.ok (.done w)) := h2

theorem stepSim (buf : List Char) (processed : Nat)
    {stP : CState} {stW : WState} (h : SimRel stP stW)
    (hstk : ∀ i ∈ stW.offsetStackW, i < 65536) :
    stepRel (compileStep buf processed stP) (compileStepW buf processed stW) := by
  simp only [compileStep, compileStepW]
  cases hFD : findDP buf processed with
  | none =>
    simp only [hFD]
    exact stepRel_done (simRel_addFragment h _)
  | some expStart =>
    simp only [hFD]
    by_cases h1 : getC buf (wrapSub expStart 1) = some '\\'
    · by_cases h2 : getC buf (wrapSub expStart 2) = some '\\'
      · rw [if_pos h1, if_pos h1, if_pos h2, if_pos h2]
        exact dispatchSim _ _ _ (simRel_addFragment h _) hstk
      · rw [if_pos h1, if_pos h1, if_neg h2, if_neg h2]
        exact stepRel_next rfl (simRel_appendDollar (simRel_addFragment h _))
    · rw [if_neg h1, if_neg h1]
      exact dispatchSim _ _ _ h hstk

theorem addFragment_len (st : CState) (frag : List Char) :
    (addFragment st frag).bytecode.length = st.bytecode.length + 1 := by
  simp [addFragment]

theorem dispatchCoreMono {buf : List Char} {expStart : Nat} {st : CState}
    {r : Step CState} (h : dispatchCore buf expStart st = .ok r) :
    st.bytecode.length ≤ (stepState r).bytecode.length := by
  simp only [dispatchCore] at h
  cases hE : matchEnd (buf.drop (expStart + 2)) with
  | some mlen =>
    simp only [hE] at h
    cases hSt : st.offsetStack with
    | nil => simp [hSt] at h
    | cons p0 rest =>
      simp only [hSt] at h
      cases hG : st.bytecode.get? p0 with
      | none =>
        simp only [hG] at h
        exact absurd h (by simp)
      | some placed =>
        simp only [hG] at h
        by_cases hMask : placed &&& 0xE000 = 0xA000
        · rw [if_pos hMask] at h
          cases h
          simp [stepState, List.length_set, List.length_append]
        · rw [if_neg hMask] at h
          cases h
          simp [stepState, List.length_set]
  | none =>
    simp only [hE] at h
    cases hV : matchVar (buf.drop (expStart + 2)) with
    | some nm =>
      obtain ⟨name, mlen⟩ := nm
      simp only [hV] at h
      rcases hAV : addVariable st.varNames name with ⟨idx, vT⟩
      rw [hAV] at h
      cases h
      simp [stepState, List.length_append]
    | none =>
      simp only [hV] at h
      cases hI : matchIf (buf.drop (expStart + 2)) with
      | some nm =>
        obtain ⟨name, mlen⟩ := nm
        simp only [hI] at h
        rcases hAV : addVariable st.varNames name with ⟨idx, vT⟩
        rw [hAV] at h
        cases h
        simp [stepState, List.length_append]
      | none =>
        simp only [hI] at h
        cases hF : matchFor (buf.drop (expStart + 2)) with
        | some nm =>
          obtain ⟨single, listName, mlen⟩ := nm
          simp only [hF] at h
          rcases hA1 : addVariable st.varNames single with ⟨idx1, v1⟩
          rw [hA1] at h
          rcases hA2 : addVariable v1 listName with ⟨idx2, v2⟩
          rw [hA2] at h
          cases h
          simp [stepState, List.length_append]
        | none =>
          simp only [hF] at h
          cases hInc : matchInclude (buf.drop (expStart + 2)) with
          | some nm =>
            obtain ⟨tgt, mlen⟩ := nm
            simp only [hInc] at h
            cases h
            simp [stepState, List.length_append]
          | none => simp [hInc] at h

theorem dispatchMono {buf : List Char} {processed expStart : Nat} {st : CState}
    {r : Step CState} (h : dispatch buf processed expStart st = .ok r) :
    st.bytecode.length ≤ (stepState r).bytecode.length := by
  unfold dispatch at h
  by_cases hfl : expStart - processed > 1
  · rw [if_pos hfl] at h
    have h2 := dispatchCoreMono h
    rw [addFragment_len] at h2
    omega
  · rw [if_neg hfl] at h
    exact dispatchCoreMono h

theorem stepMono {buf : List Char} {processed : Nat} {st : CState}
    {r : Step CState} (h : compileStep buf processed st = .ok r) :
    st.bytecode.length ≤ (stepState r).bytecode.length := by
  simp only [compileStep] at h
  cases hFD : findDP buf processed with
  | none =>
    simp only [hFD] at h
    cases h
    simp [stepState, addFragment_len]
  | some expStart =>
    simp only [hFD] at h
    by_cases h1 : getC buf (wrapSub expStart 1) = some '\\'
    · by_cases h2 : getC buf (wrapSub expStart 2) = some '\\'
      · rw [if_pos h1, if_pos h2] at h
        have h3 := dispatchMono h
        rw [addFragment_len] at h3
        omega
      · rw [if_pos h1, if_neg h2] at h
        cases h
        have h4 := addFragment_len st (slice buf processed (wrapSub expStart 1))
        simp only [stepState, appendDollar]
        omega
    · rw [if_neg h1] at h
      exact dispatchMono h

theorem loopMono (buf : List Char) : ∀ (fuel pr : Nat) (st s' : CState),
    compileLoop buf fuel pr st = .ok s' → st.bytecode.length ≤ s'.bytecode.length := by
  intro fuel
  induction fuel with
  | zero =>
    intro pr st s' h
    simp [compileLoop] at h
  | succ n ih =>
    intro pr st s' h
    simp only [compileLoop] at h
    by_cases hp : pr < buf.length
    · rw [if_pos hp] at h
      cases hcs : compileStep buf pr st with
      | error e => rw [hcs] at h; simp at h
      | ok r =>
        rw [hcs] at h
        cases r with
        | done s2 =>
          have h1 := stepMono hcs
          simp only [stepState] at h1
          simp only [Except.ok.injEq] at h
          subst h
          exact h1
        | next p2 s2 =>
          have h1 := stepMono hcs
          simp only [stepState] at h1
          have h2 := ih p2 s2 s' h
          omega
    · rw [if_neg hp] at h
      simp only [Except.ok.injEq] at h
      subst h
      exact le_refl _

theorem loopSim (buf : List Char) : ∀ (fuel pr : Nat) (stP : CState) (stW : WState)
    (s' : CState), compileLoop buf fuel pr stP = .ok s' → SimRel stP stW →
    s'.bytecode.length < 65536 →
    ∃ sW', compileLoopW buf fuel pr stW = .ok sW' ∧ SimRel s' sW' := by
  intro fuel
  induction fuel with
  | zero =>
    intro pr stP stW s' h0 hsim hbound
    simp [compileLoop] at h0
  | succ n ih =>
    intro pr stP stW s' h0 hsim hbound
    have hmono := loopMono buf (n + 1) pr stP s' h0
    have hlenW : stW.bytecodeW.length = stP.bytecode.length := by
      rw [hsim.bc, List.length_map]
    have hstk : ∀ i ∈ stW.offsetStackW, i < 65536 := by
      intro i hi2
      have := hsim.stkLt i hi2
      omega
    simp only [compileLoop] at h0
    simp only [compileLoopW]
    by_cases hp : pr < buf.length
    · rw [if_pos hp] at h0
      rw [if_pos hp]
      have hrel := stepSim buf pr hsim hstk
      cases hcs : compileStep buf pr stP with
      | error e =>
        rw [hcs] at h0
        exact absurd h0 (by simp)
      | ok r =>
        rw [hcs] at h0
        cases r with
        | done s2 =>
          simp only [Except.ok.injEq] at h0
          subst h0
          rw [hcs] at hrel
          cases hw2 : compileStepW buf pr stW with
          | error e2 =>
            rw [hw2] at hrel
            exact hrel.elim
          | ok r2 =>
            rw [hw2] at hrel
            cases r2 with
            | done w2 =>
              refine ⟨w2, ?_, hrel⟩
              rfl
            | next q2 w2 =>
              exact hrel.elim
        | next p2 s2 =>
          rw [hcs] at hrel
          cases hw2 : compileStepW buf pr stW with
          | error e2 =>
            rw [hw2] at hrel
            exact hrel.elim
          | ok r2 =>
            rw [hw2] at hrel
            cases r2 with
            | done w2 =>
              exact hrel.elim
            | next q2 w2 =>
              obtain ⟨hpp, hsim2⟩ := hrel
              subst hpp
              obtain ⟨sW', hW, hS2⟩ := ih p2 s2 w2 s' h0 hsim2 hbound
              exact ⟨sW', hW, hS2⟩
    · rw [if_neg hp] at h0
      rw [if_neg hp]
      simp only [Except.ok.injEq] at h0
      subst h0
      exact ⟨stW, rfl, hsim⟩

theorem simRel_init : SimRel initCState initWState :=
  ⟨rfl, rfl, rfl, rfl, rfl, by intro i hi2; simp [initWState] at hi2,
    by simp [initWState], by intro i hi2; simp [initWState] at hi2,
    by intro x hx; simp [initWState] at hx⟩

/-- C4, amended. The per-instruction faithfulness holds only under size
bounds. For every accepted source whose compiled program keeps its bytecode,
fragment table, variable table and include table within 0x2000 entries, the
wide replay `compileW` also accepts, every wide instruction carries a 3-bit
opcode and a 13-bit operand, and every packed instruction equals the clean
packing `opcode * 0x2000 + operand` of its wide counterpart: no emitted index
overflows the 13-bit operand into the opcode bits. (Without those bounds the
original claim is refuted by the 8190-variable counterexample above.) -/
theorem fae_c4_amended (buf : List Char) (pP : Program)
    (hc : compile buf = .ok pP)
    (hbc : pP.bytecode.length ≤ 0x2000)
    (hfr : pP.fragments.length ≤ 0x2000)
    (hvr : pP.varNames.length ≤ 0x2000)
    (hin : pP.includeNames.length ≤ 0x2000) :
    ∃ pW : ProgramW, compileW buf = .ok pW ∧
      pP.bytecode = pW.bytecodeW.map packClean ∧
      ∀ x ∈ pW.bytecodeW, x.1 < 8 ∧ x.2 ≤ 0x1FFF := by
  unfold compile at hc
  cases hL : compileLoop buf (buf.length + 1) 0 initCState with
  | error e =>
    rw [hL] at hc
    exact absurd hc (by simp)
  | ok st =>
    rw [hL] at hc
    simp only [Except.ok.injEq] at hc
    subst hc
    simp only [List.length_append, List.length_cons, List.length_nil] at hbc
    have hstlen : st.bytecode.length ≤ 0x1FFF := by omega
    obtain ⟨sW, hW, hsim⟩ :=
      loopSim buf (buf.length + 1) 0 initCState initWState st hL simRel_init (by omega)
    have hblW : sW.bytecodeW.length ≤ 0x1FFF := by
      have h9 := hstlen
      rw [hsim.bc, List.length_map] at h9
      exact h9
    have hflW : sW.fragments.length ≤ 0x2000 := by
      have h9 := hfr
      rw [hsim.frags] at h9
      exact h9
    have hvlW : sW.varNames.length ≤ 0x2000 := by
      have h9 := hvr
      rw [hsim.vars] at h9
      exact h9
    have hilW : sW.includeNames.length ≤ 0x2000 := by
      have h9 := hin
      rw [hsim.incs] at h9
      exact h9
    have hwell : ∀ x ∈ sW.bytecodeW, x.1 < 8 ∧ x.2 ≤ 0x1FFF := by
      intro x hx
      obtain ⟨a, b, c, d, e, f, g⟩ := hsim.winv x hx
      omega
    refine ⟨⟨sW.fragments, sW.varNames, sW.includeNames, sW.bytecodeW ++ [(0, 0)]⟩, ?_, ?_, ?_⟩
    · unfold compileW
      rw [hW]
    · show st.bytecode ++ [0] = List.map packClean (sW.bytecodeW ++ [(0, 0)])
      rw [List.map_append, hsim.bc]
      have h1 : List.map packT sW.bytecodeW = List.map packClean sW.bytecodeW := by
        refine List.map_congr_left ?_
        intro x hx
        obtain ⟨o, a2⟩ := x
        obtain ⟨ho, ha⟩ := hwell (o, a2) hx
        rw [packT_clean o a2 ho ha]
        rfl
      rw [h1, List.map_cons, List.map_nil]
      norm_num [packClean]
    · intro x hx
      rcases List.mem_append.mp hx with h5 | h5
      · exact hwell x h5
      · have hx2 : x = (0, 0) := by simpa using h5
        subst hx2
        exact ⟨by omega, by omega⟩

theorem fae_c4_amended_witness :
    ∃ pW : ProgramW, compileW "ab$(x)".data = .ok pW ∧
      pAb.bytecode = pW.bytecodeW.map packClean ∧
      ∀ x ∈ pW.bytecodeW, x.1 < 8 ∧ x.2 ≤ 0x1FFF :=
  fae_c4_amended "ab$(x)".data pAb (by decide) (by decide) (by decide) (by decide)
    (by decide)

end Fae
